import Mathlib

/-!
Verification of the MinimaLang repository: shallow embeddings of the three
minimal-Lisp interpreter prototypes (`lisp.py`, `lisp2.py`, `lisp3.py`),
followed by theorems settling the frozen specification claims.

Modelling conventions, applied uniformly:
* Python machine state is passed explicitly.  `lisp.py` chains `Env` objects
  mutated in place, so its environments live in a store (a list of frames
  addressed by index) and a `Procedure` captures the index of its defining
  frame (capture by reference).  `lisp2.py` copies flat dict environments at
  closure creation, so its closures carry the snapshot itself as a value.
  `lisp3.py` closures close over the live dict and copy it at call time, so
  its flat environments live in a store and a closure captures an index.
* Recursive Python functions are given a fuel argument (decremented on every
  recursive call) so that every definition is structural and computable;
  running out of fuel is a distinguished error that theorems show unreachable
  where it matters.  Python would instead grow its call stack (the spec
  accepts unbounded recursion), so fuel-exhaustion corresponds to stack
  exhaustion and cyclic-chain divergence, neither reachable in the claims.
* Fallible host operations (tuple unpacking, `tokens[0]` on an empty list,
  indexing, calling a non-callable) become explicit error values named after
  the Python exception they model.
* Out of modelling scope, never exercised by any claim: float literals and
  float-producing arithmetic (a token Python would read as a float is kept
  as a Symbol, `/` in `lisp.py`/`lisp3.py` returns a distinguished error),
  object identity on procedure values (structural comparison is used),
  binding names that are not symbols, parameter lists that are not lists of
  symbols, and the text printed by `print`/debug tracing.
-/

/-- Python dict lookup in an insertion-ordered association list. -/
def getAssoc {α : Type} : List (String × α) → String → Option α
  | [], _ => none
  | (k, v) :: rest, n => if k = n then some v else getAssoc rest n

/-- Python dict assignment `d[k] = v` (replace in place, else append). -/
def setAssoc {α : Type} : List (String × α) → String → α →
    List (String × α)
  | [], n, v => [(n, v)]
  | (k, w) :: rest, n, v =>
      if k = n then (k, v) :: rest else (k, w) :: setAssoc rest n v

def wsChar (c : Char) : Bool :=
  c = ' ' ∨ c = Char.ofNat 9 ∨ c = Char.ofNat 10 ∨ c = Char.ofNat 13 ∨
  c = Char.ofNat 11 ∨ c = Char.ofNat 12

/-- `str.split()`: split on runs of whitespace, discarding empty pieces. -/
def splitWsAux : List Char → List Char → List String
  | [], [] => []
  | [], acc => [String.mk acc.reverse]
  | c :: cs, acc =>
      if wsChar c then
        match acc with
        | [] => splitWsAux cs []
        | _ => String.mk acc.reverse :: splitWsAux cs []
      else splitWsAux cs (c :: acc)

def splitWs (cs : List Char) : List String := splitWsAux cs []

/-- The double-quote character. -/
def dquote : Char := Char.ofNat 34

/-- The single-quote character and its one-character token. -/
def qchar : Char := Char.ofNat 39

def qtok : String := String.mk [qchar]

/-- Python `int(token)` for a whitespace-free token: an optional sign
followed by digits, single underscores allowed between digits. -/
def digitVal (c : Char) : Option Nat :=
  if c.toNat ≥ 48 ∧ c.toNat ≤ 57 then some (c.toNat - 48) else none

def parseDigits : Nat → List Char → Option Nat
  | acc, [] => some acc
  | acc, c :: cs =>
      if c = '_' then
        match cs with
        | d :: cs2 =>
            match digitVal d with
            | some n => parseDigits (acc * 10 + n) cs2
            | none => none
        | [] => none
      else
        match digitVal c with
        | some n => parseDigits (acc * 10 + n) cs
        | none => none

def parseDigits1 : List Char → Option Nat
  | [] => none
  | c :: cs =>
      match digitVal c with
      | some n => parseDigits n cs
      | none => none

def pyParseInt (s : String) : Option Int :=
  match s.data with
  | '-' :: cs => (parseDigits1 cs).map (fun n => -(n : Int))
  | '+' :: cs => (parseDigits1 cs).map (fun n => (n : Int))
  | cs => (parseDigits1 cs).map (fun n => (n : Int))

namespace Lisp1

/-- Values of `lisp.py`.  Python conflates symbols and strings (its `atom`
returns a bare `str` for both), so a single `sym` constructor covers both.
`proc` is `Procedure(params, body, env)` with `env` a frame index (capture
by reference).  `pyNone` is Python `None` (the result of `print`, and of an
empty `begin`). -/
inductive Value where
  | sym : String → Value
  | int : Int → Value
  | bool : Bool → Value
  | list : List Value → Value
  | proc : List String → Value → Nat → Value
  | prim : String → Value
  | pyNone : Value

/-- Errors of `lisp.py` evaluation/parsing, named after the Python exception
that escapes. -/
inductive Err where
  | nameErr      -- NameError: Undefined symbol
  | typeNotFn    -- TypeError: Not a function / Apply: not a function
  | hostType     -- TypeError raised by a host operation (e.g. 5[0])
  | hostIndex    -- IndexError (tokens[0] or a[0] on an empty list)
  | hostValue    -- ValueError (tuple unpacking of a malformed form)
  | hostAssert   -- AssertionError ("eval expects list or atom")
  | hostKey      -- KeyError (unreachable: find only returns owning frames)
  | hostZero     -- ZeroDivisionError
  | floatOut     -- a float was produced: outside the model
  | unmodelled   -- non-symbol binding name or parameter list: outside the model
  | eofErr       -- SyntaxError: unexpected EOF while reading
  | closeErr     -- SyntaxError: unexpected )
  | fuelOut      -- fuel exhausted: models host stack exhaustion / divergence
deriving Repr, DecidableEq

/-- One `Env` object: a dict plus the `outer` reference, as in `lisp.py`
`class Env(dict)`. -/
structure Frame where
  map : List (String × Value)
  parent : Option Nat

/-- The heap of `Env` objects; a frame is addressed by its index. -/
abbrev Store := List Frame

/-- Lookup in the frame at index `i`. -/
def frameGetAt (st : Store) (i : Nat) (n : String) : Option Value :=
  match st[i]? with
  | some fr => getAssoc fr.map n
  | none => none

/-- `d[k] = v` on the frame at index `i`. -/
def storeSetAt (st : Store) (i : Nat) (n : String) (v : Value) : Store :=
  match st[i]? with
  | some fr => st.set i ⟨setAssoc fr.map n v, fr.parent⟩
  | none => st

/-- `Env.find`: walk the `outer` chain, returning the nearest frame that owns
the symbol.  Fueled: Python recursion is unbounded, but any chain built by the
interpreter has strictly decreasing parent indices, so `st.length + 1` fuel
(as used by `findEnv`) never runs out on reachable stores. -/
def findF : Nat → Store → Nat → String → Option Nat
  | 0, _, _, _ => none
  | fuel + 1, st, i, n =>
      match st[i]? with
      | none => none
      | some fr =>
          if (getAssoc fr.map n).isSome then some i
          else
            match fr.parent with
            | some p => findF fuel st p n
            | none => none

def findEnv (st : Store) (i : Nat) (n : String) : Option Nat :=
  findF (st.length + 1) st i n

/-- The list of frame indices `Env.find` visits, innermost first. -/
def chainF : Nat → Store → Nat → List Nat
  | 0, _, _ => []
  | fuel + 1, st, i =>
      i :: (match st[i]? with
            | none => []
            | some fr =>
                match fr.parent with
                | some p => chainF fuel st p
                | none => [])

def chainIds (st : Store) (i : Nat) : List Nat :=
  chainF (st.length + 1) st i

/-- Whether the frame at index `g` owns a binding for `n`. -/
def ownsB (st : Store) (g : Nat) (n : String) : Bool :=
  (frameGetAt st g n).isSome

/-- Python numeric view: `bool` is an `int` subclass, so `True` counts as 1
in arithmetic and comparisons. -/
def toNum : Value → Option Int
  | .int n => some n
  | .bool b => some (if b then 1 else 0)
  | _ => none

/-- Python truthiness, as used by `lisp.py`'s `if`: zero, the empty
string, `False`, the empty list and `None` are falsy; everything else is
truthy. -/
def pyTruthy : Value → Bool
  | .int n => n != 0
  | .bool b => b
  | .sym s => !(s == "")
  | .list l => !l.isEmpty
  | .pyNone => false
  | .proc _ _ _ => true
  | .prim _ => true

/-- Python `==` on `lisp.py` values.  Numeric values compare by value
(`True == 1`), lists element-wise (equal lengths, equal members).  Function
and `Procedure` objects compare by object identity in Python, which a
structural model cannot observe; they are modelled as never equal.  Fueled
by the nesting depth; the wrapper `pyEq` supplies ample fuel. -/
def pyEqF : Nat → Value → Value → Bool
  | 0, _, _ => false
  | fuel + 1, a, b =>
      match toNum a, toNum b with
      | some na, some nb => na == nb
      | _, _ =>
          match a, b with
          | .sym s, .sym t => s == t
          | .pyNone, .pyNone => true
          | .list xs, .list ys =>
              xs.length == ys.length &&
                (List.zip xs ys).all (fun p => pyEqF fuel p.1 p.2)
          | _, _ => false

def pyEq (a b : Value) : Bool := pyEqF 1000 a b

/-- `sum(args)` with Python numeric coercion. -/
def sumNum : List Value → Option Int
  | [] => some 0
  | v :: rest =>
      match toNum v, sumNum rest with
      | some n, some m => some (n + m)
      | _, _ => none

/-- Python ordering comparison `a < b` for the binary comparison
primitives: numbers by value, strings lexicographically, anything else is a
host `TypeError`. -/
def pyLt (a b : Value) : Except Err Bool :=
  match toNum a, toNum b with
  | some na, some nb => .ok (na < nb)
  | _, _ =>
      match a, b with
      | .sym s, .sym t => .ok (s < t)
      | _, _ => .error .hostType

/-- The `PRIMITIVES` table of `lisp.py`, applied to evaluated arguments.
Each entry is a Python lambda; a call whose argument count does not match the
lambda's signature raises a host `TypeError`. -/
def applyPrim : String → List Value → Except Err Value
  | "+", args =>
      match sumNum args with
      | some n => .ok (.int n)
      | none => .error .hostType
  | "-", [] => .error .hostType
  | "-", a :: rest =>
      match toNum a, sumNum rest with
      | some n, some m => .ok (.int (if rest.isEmpty then -n else n - m))
      | _, _ => .error .hostType
  | "*", args =>
      match args.foldl (fun acc v =>
          match acc, toNum v with
          | some p, some n => some (p * n)
          | _, _ => none) (some (1 : Int)) with
      | some n => .ok (.int n)
      | none => .error .hostType
  | "/", [_, _] => .error .floatOut  -- true division returns a float
  | ">", [a, b] => (pyLt b a).map .bool
  | "<", [a, b] => (pyLt a b).map .bool
  | ">=", [a, b] => (pyLt a b).map (fun r => .bool (!r))
  | "<=", [a, b] => (pyLt b a).map (fun r => .bool (!r))
  | "=", [a, b] => .ok (.bool (pyEq a b))
  | "eq?", [a, b] => .ok (.bool (pyEq a b))
  | "cons", [a, b] =>
      .ok (.list (a :: (match b with | .list l => l | _ => [b])))
  | "car", [a] =>
      match a with
      | .list (x :: _) => .ok x
      | .list [] => .error .hostIndex
      | .sym s =>
          match s.data with
          | c :: _ => .ok (.sym (String.mk [c]))
          | [] => .error .hostIndex
      | _ => .error .hostType
  | "cdr", [a] =>
      match a with
      | .list l => .ok (.list l.tail)
      | .sym s => .ok (.sym (String.mk s.data.tail))
      | _ => .error .hostType
  | "list", args => .ok (.list args)
  | "list?", [a] =>
      .ok (.bool (match a with | .list _ => true | _ => false))
  | "null?", [a] => .ok (.bool (pyEq a (.list [])))
  | "print", _ => .ok .pyNone  -- output itself is outside the model
  | _, _ => .error .hostType

/-- `params` of a `lambda` form, required to be a list of symbols (anything
else is outside the model; Python would accept it silently and bind nothing
usable). -/
def toParams : Value → Option (List String)
  | .list l =>
      l.foldr (fun v acc =>
        match v, acc with
        | .sym s, some ss => some (s :: ss)
        | _, _ => none) (some [])
  | _ => none

/-- `Env(params, args, outer)`: `zip` truncates to the shorter sequence, so
extra arguments are dropped and extra parameters stay unbound. -/
def zipBind : List String → List Value → List (String × Value)
  | p :: ps, v :: vs => (p, v) :: zipBind ps vs
  | _, _ => []

/-- `eval_lisp` of `lisp.py`, with the store of `Env` objects passed
explicitly.  The operand loop and the `begin` loop are folds over the operand
list; the default application path (evaluate head, evaluate operands left to
right, apply) is inlined, and a `Procedure` call binds its parameters with
`zip` (no arity check) in a fresh frame whose parent is the frame the
`Procedure` captured by reference. -/
def eval_lisp : Nat → Value → Nat → Store → Except Err (Value × Store)
  | 0, _, _, _ => .error .fuelOut
  | _ + 1, .sym s, envId, st =>
      match findEnv st envId s with
      | some g =>
          match frameGetAt st g s with
          | some v => .ok (v, st)
          | none => .error .hostKey
      | none => .error .nameErr
  | _ + 1, .int n, _, st => .ok (.int n, st)
  | _ + 1, .bool b, _, st => .ok (.bool b, st)
  | _ + 1, .proc _ _ _, _, _ => .error .hostAssert
  | _ + 1, .prim _, _, _ => .error .hostAssert
  | _ + 1, .pyNone, _, _ => .error .hostAssert
  | _ + 1, .list [], _, st => .ok (.list [], st)
  | fuel + 1, .list (head :: rest), envId, st =>
      let applyTo : Value → Except Err (Value × Store) := fun h =>
        match eval_lisp fuel h envId st with
        | .ok (p, st1) =>
            (match rest.foldl (fun (acc : Except Err (List Value × Store)) e =>
                match acc with
                | .ok (vs, st2) =>
                    (match eval_lisp fuel e envId st2 with
                     | .ok (v, st3) => .ok (vs ++ [v], st3)
                     | .error err => .error err)
                | .error err => .error err)
                (.ok (([] : List Value), st1)) with
             | .ok (vs, st2) =>
                 (match p with
                  | .prim pr =>
                      (match applyPrim pr vs with
                       | .ok v => .ok (v, st2)
                       | .error e2 => .error e2)
                  | .proc params body cenv =>
                      eval_lisp fuel body st2.length
                        (st2 ++ [⟨zipBind params vs, some cenv⟩])
                  | _ => .error .typeNotFn)
             | .error e2 => .error e2)
        | .error e2 => .error e2
      match head with
      | .sym s =>
          if s = "quote" then
            match rest with
            | [e] => .ok (e, st)
            | _ => .error .hostValue
          else if s = "if" then
            match rest with
            | [t, c, a] =>
                match eval_lisp fuel t envId st with
                | .ok (tv, st1) =>
                    eval_lisp fuel (if pyTruthy tv then c else a) envId st1
                | .error e => .error e
            | _ => .error .hostValue
          else if s = "define" ∨ s = "set!" then
            match rest with
            | [nv, e] =>
                match nv with
                | .sym name =>
                    (match eval_lisp fuel e envId st with
                     | .ok (v, st1) =>
                         (match findEnv st1 envId name with
                          | some g => .ok (.sym name, storeSetAt st1 g name v)
                          | none =>
                              .ok (.sym name, storeSetAt st1 envId name v))
                     | .error e2 => .error e2)
                | _ => .error .unmodelled
            | _ => .error .hostValue
          else if s = "lambda" then
            match rest with
            | [ps, body] =>
                match toParams ps with
                | some params => .ok (.proc params body envId, st)
                | none => .error .unmodelled
            | _ => .error .hostValue
          else if s = "begin" then
            rest.foldl (fun acc e =>
              match acc with
              | .ok (_, st1) => eval_lisp fuel e envId st1
              | .error err => .error err) (.ok (.pyNone, st))
          else applyTo (.sym s)
      | h => applyTo h

/-- The global frame of `lisp.py`: the `PRIMITIVES` table plus `true`,
`false`, `nil`. -/
def global_env : Frame :=
  ⟨[("+", .prim "+"), ("-", .prim "-"), ("*", .prim "*"), ("/", .prim "/"),
    (">", .prim ">"), ("<", .prim "<"), (">=", .prim ">="),
    ("<=", .prim "<="), ("=", .prim "="), ("eq?", .prim "eq?"),
    ("cons", .prim "cons"), ("car", .prim "car"), ("cdr", .prim "cdr"),
    ("list", .prim "list"), ("list?", .prim "list?"),
    ("null?", .prim "null?"), ("print", .prim "print"),
    ("true", .bool true), ("false", .bool false), ("nil", .list [])],
   none⟩

/-- `tokenize` of `lisp.py`: space out parentheses, then `split()`.  (No
quote shorthand in this prototype.) -/
def tokenize (s : String) : List String :=
  splitWs ((s.data.map (fun c =>
    if c = '(' then [' ', '(', ' ']
    else if c = ')' then [' ', ')', ' ']
    else [c])).flatten)

/-- `atom` of `lisp.py`: a double-quoted token is unwrapped to a bare
string (indistinguishable from a symbol in this prototype), otherwise try
`int`, otherwise a symbol.  Float literals are outside the model and stay
symbols. -/
def atom (t : String) : Value :=
  match t.data with
  | c :: (d :: ds) =>
      if c = dquote ∧ (d :: ds).getLast? = some dquote then
        .sym (String.mk ((d :: ds).dropLast))
      else
        match pyParseInt t with
        | some n => .int n
        | none => .sym t
  | _ =>
      match pyParseInt t with
      | some n => .int n
      | none => .sym t

/-- Parser task: `.expr` is a `parse` call, `.loop acc` the
`while tokens[0] != ')'` list loop with the elements read so far. -/
inductive PTask where
  | expr : PTask
  | loop : List Value → PTask

/-- `parse` of `lisp.py` (both the function and its list loop, fused on a
task argument so the recursion is structural on fuel).  The list loop peeks
`tokens[0]` without checking for exhaustion, so running out of tokens inside
a list is a host `IndexError`, not a `SyntaxError`. -/
def parseC : Nat → PTask → List String → Except Err (Value × List String)
  | 0, _, _ => .error .fuelOut
  | _ + 1, .expr, [] => .error .eofErr
  | fuel + 1, .expr, t :: ts =>
      if t = "(" then parseC fuel (.loop []) ts
      else if t = ")" then .error .closeErr
      else .ok (atom t, ts)
  | _ + 1, .loop _, [] => .error .hostIndex
  | fuel + 1, .loop acc, t :: ts =>
      if t = ")" then .ok (.list acc.reverse, ts)
      else
        match parseC fuel .expr (t :: ts) with
        | .ok (v, rest) => parseC fuel (.loop (v :: acc)) rest
        | .error e => .error e

def parse (fuel : Nat) (ts : List String) : Except Err (Value × List String) :=
  parseC fuel .expr ts

/-- `loads`: repeatedly `parse` until the token stream is empty. -/
def loads : Nat → List String → Except Err (List Value)
  | 0, _ => .error .fuelOut
  | _ + 1, [] => .ok []
  | fuel + 1, t :: ts =>
      match parse fuel (t :: ts) with
      | .ok (v, rest) =>
          match loads fuel rest with
          | .ok vs => .ok (v :: vs)
          | .error e => .error e
      | .error e => .error e

/-- The evaluation loop of `run`: evaluate each top-level expression against
the global frame, returning the last value (`None` for an empty program). -/
def runLoop : Nat → List Value → Store → Value → Except Err Value
  | 0, _, _, _ => .error .fuelOut
  | _ + 1, [], _, acc => .ok acc
  | fuel + 1, e :: es, st, _ =>
      match eval_lisp fuel e 0 st with
      | .ok (v, st1) => runLoop fuel es st1 v
      | .error err => .error err

/-- `run` of `lisp.py`: tokenize, `loads`, evaluate every expression in
sequence against the global frame, return the last value. -/
def run (fuel : Nat) (src : String) : Except Err Value :=
  match loads fuel (tokenize src) with
  | .ok exprs => runLoop fuel exprs [global_env] .pyNone
  | .error e => .error e

/-- The §4.3 `define` rule as a standalone store transformer: mutate the
owning frame in place if `find` locates one, else bind in the current
frame. -/
def defineBind (st : Store) (envId : Nat) (name : String) (v : Value) :
    Store :=
  match findEnv st envId name with
  | some g => storeSetAt st g name v
  | none => storeSetAt st envId name v

end Lisp1

namespace Lisp2

/-- Values of `lisp2.py`.  A `Closure` carries its parameter list, single
body expression, and the flat dict environment it captured — `lisp2.py`
passes `env.copy()` to the constructor, so the captured environment is a
snapshot taken at definition time, not a reference. -/
inductive Value where
  | int : Int → Value
  | sym : String → Value
  | bool : Bool → Value
  | list : List Value → Value
  | closure : List String → Value → List (String × Value) → Value
  | prim : String → Value

abbrev Env := List (String × Value)

/-- Errors of `lisp2.py` evaluation/parsing, named after the Python
exception (and message family) that escapes. -/
inductive Err where
  | typeArgCount   -- TypeError: argument count mismatch (Closure call)
  | typePrimArity  -- TypeError: <prim> expects N args
  | typeWrongArg   -- TypeError: cons second argument must be a list
  | nameUnknownOp  -- NameError: unknown operator
  | clauseErr      -- SyntaxError: cond clauses must be (test expr) pairs
  | hostType       -- TypeError from a host operation (e.g. arithmetic on a symbol)
  | hostValue      -- ValueError (tuple unpacking of a malformed form)
  | hostIndex      -- IndexError (tokens[0] on an empty token list)
  | hostZero       -- ZeroDivisionError
  | eofErr         -- SyntaxError: unexpected EOF while reading
  | closeErr       -- SyntaxError: unexpected )
  | fuelOut        -- fuel exhausted: models host stack exhaustion
deriving Repr, DecidableEq

/-- Python numeric view (`bool` is an `int` subclass). -/
def toNum : Value → Option Int
  | .int n => some n
  | .bool b => some (if b then 1 else 0)
  | _ => none

/-- Python `== []`, the test `cond` uses: only the empty list equals the
empty list. -/
def pyEqNil : Value → Bool
  | .list [] => true
  | _ => false

/-- Python `==` on `lisp2.py` values: numbers by value (`True == 1`),
lists element-wise; function/closure objects compare by identity in Python,
modelled as never equal. -/
def pyEqF : Nat → Value → Value → Bool
  | 0, _, _ => false
  | fuel + 1, a, b =>
      match toNum a, toNum b with
      | some na, some nb => na == nb
      | _, _ =>
          match a, b with
          | .sym s, .sym t => s == t
          | .list xs, .list ys =>
              xs.length == ys.length &&
                (List.zip xs ys).all (fun p => pyEqF fuel p.1 p.2)
          | _, _ => false

def pyEq (a b : Value) : Bool := pyEqF 1000 a b

/-- `prim_atom` of `lisp2.py` (arity checked by the function itself). -/
def prim_atom : List Value → Except Err Value
  | [a] =>
      .ok (if (match a with | .list l => l.isEmpty | _ => true)
           then .bool true else .list [])
  | _ => .error .typePrimArity

/-- `prim_eq` of `lisp2.py`: Python equality, returned as the `T`/`NIL`
sentinels. -/
def prim_eq : List Value → Except Err Value
  | [a, b] => .ok (if pyEq a b then .bool true else .list [])
  | _ => .error .typePrimArity

/-- `prim_cons` of `lisp2.py`: the second argument must be a list. -/
def prim_cons : List Value → Except Err Value
  | [a, b] =>
      match b with
      | .list l => .ok (.list (a :: l))
      | _ => .error .typeWrongArg
  | _ => .error .typePrimArity

/-- `prim_car` of `lisp2.py`: empty list (never an error) for a non-list or
empty argument. -/
def prim_car : List Value → Except Err Value
  | [a] =>
      match a with
      | .list (x :: _) => .ok x
      | _ => .ok (.list [])
  | _ => .error .typePrimArity

/-- `prim_cdr` of `lisp2.py`: empty list (never an error) for a non-list or
empty argument. -/
def prim_cdr : List Value → Except Err Value
  | [a] =>
      match a with
      | .list (_ :: rest) => .ok (.list rest)
      | _ => .ok (.list [])
  | _ => .error .typePrimArity

def sumNum : List Value → Option Int
  | [] => some 0
  | v :: rest =>
      match toNum v, sumNum rest with
      | some n, some m => some (n + m)
      | _, _ => none

def prim_add (args : List Value) : Except Err Value :=
  match sumNum args with
  | some n => .ok (.int n)
  | none => .error .hostType

def prim_sub : List Value → Except Err Value
  | [] => .error .typePrimArity
  | [a] =>
      match toNum a with
      | some n => .ok (.int (-n))
      | none => .error .hostType
  | a :: rest =>
      match toNum a, sumNum rest with
      | some n, some m => .ok (.int (n - m))
      | _, _ => .error .hostType

def prim_mul (args : List Value) : Except Err Value :=
  match args.foldl (fun acc v =>
      match acc, toNum v with
      | some p, some n => some (p * n)
      | _, _ => none) (some (1 : Int)) with
  | some n => .ok (.int n)
  | none => .error .hostType

/-- `prim_div` of `lisp2.py`: needs at least two operands and folds with
`//` when both sides are ints (always the case here: no float ever enters a
`lisp2.py` evaluation), so the result stays an integer; Python `//` floors. -/
def prim_div : List Value → Except Err Value
  | [] => .error .typePrimArity
  | [_] => .error .typePrimArity
  | a :: rest =>
      match toNum a with
      | none => .error .hostType
      | some n =>
          match rest.foldl (fun (acc : Except Err Int) v =>
              match acc, toNum v with
              | .ok p, some m =>
                  if m = 0 then .error Err.hostZero else .ok (Int.fdiv p m)
              | .ok _, none => .error Err.hostType
              | .error e, _ => .error e) (.ok n) with
          | .ok r => .ok (.int r)
          | .error e => .error e

/-- The primitive table of `make_global_env`, dispatched by name. -/
def applyPrim : String → List Value → Except Err Value
  | "atom", args => prim_atom args
  | "eq", args => prim_eq args
  | "cons", args => prim_cons args
  | "car", args => prim_car args
  | "cdr", args => prim_cdr args
  | "+", args => prim_add args
  | "-", args => prim_sub args
  | "*", args => prim_mul args
  | "/", args => prim_div args
  | _, _ => .error .hostType

/-- `make_global_env` of `lisp2.py`: the primitives plus the `T`/`NIL`
sentinels, in insertion order. -/
def make_global_env : Env :=
  [("atom", .prim "atom"), ("eq", .prim "eq"), ("cons", .prim "cons"),
   ("car", .prim "car"), ("cdr", .prim "cdr"), ("+", .prim "+"),
   ("-", .prim "-"), ("*", .prim "*"), ("/", .prim "/"),
   ("T", .bool true), ("NIL", .list [])]

/-- A `lambda`/`defun` parameter list must be a list of symbols; anything
else is outside the model. -/
def toParams : Value → Option (List String)
  | .list l =>
      l.foldr (fun v acc =>
        match v, acc with
        | .sym s, some ss => some (s :: ss)
        | _, _ => none) (some [])
  | _ => none

/-- `new_env = op.env.copy(); for p, a in zip(params, args): new_env[p] = a`. -/
def bindParams (cenv : Env) (ps : List String) (args : List Value) : Env :=
  (List.zip ps args).foldl (fun e pa => setAssoc e pa.1 pa.2) cenv

/-- `eval_lisp` of `lisp2.py`.  The flat dict environment is threaded
explicitly: special forms that assign (`defun`, `setq`) return the updated
dict, closure bodies run on a copy whose updates are discarded, exactly as
the Python mutates.  The special forms `atom`/`eq`/`cons`/`car`/`cdr`
dispatch to the global primitive table (the Python consults `global_env`,
not the evaluation environment; rebinding those names in the global frame is
outside the model). -/
def eval_lisp : Nat → Value → Env → Except Err (Value × Env)
  | 0, _, _ => .error .fuelOut
  | _ + 1, .sym s, env =>
      if s = "NIL" then .ok (.list [], env)
      else .ok ((getAssoc env s).getD (.sym s), env)
  | _ + 1, .int n, env => .ok (.int n, env)
  | _ + 1, .bool b, env => .ok (.bool b, env)
  | _ + 1, .closure ps b e, env => .ok (.closure ps b e, env)
  | _ + 1, .prim p, env => .ok (.prim p, env)
  | _ + 1, .list [], env => .ok (.list [], env)
  | fuel + 1, .list (head :: rest), env =>
      let applyTo : Value → Except Err (Value × Env) := fun h =>
        match eval_lisp fuel h env with
        | .ok (op, env1) =>
            (match rest.foldl (fun (acc : Except Err (List Value × Env)) e =>
                match acc with
                | .ok (vs, env2) =>
                    (match eval_lisp fuel e env2 with
                     | .ok (v, env3) => .ok (vs ++ [v], env3)
                     | .error err => .error err)
                | .error err => .error err)
                (.ok (([] : List Value), env1)) with
             | .ok (vs, env2) =>
                 (match op with
                  | .prim p =>
                      (match applyPrim p vs with
                       | .ok v => .ok (v, env2)
                       | .error e2 => .error e2)
                  | .closure ps body cenv =>
                      if ps.length ≠ vs.length then .error .typeArgCount
                      else
                        (match eval_lisp fuel body (bindParams cenv ps vs) with
                         | .ok (v, _) => .ok (v, env2)
                         | .error e2 => .error e2)
                  | _ => .error .nameUnknownOp)
             | .error e2 => .error e2)
        | .error e2 => .error e2
      match head with
      | .sym s =>
          if s = "quote" then
            match rest with
            | [e] => .ok (e, env)
            | _ => .error .hostValue
          else if s = "atom" then
            match rest with
            | [e] =>
                (match eval_lisp fuel e env with
                 | .ok (v, env1) =>
                     (match prim_atom [v] with
                      | .ok r => .ok (r, env1)
                      | .error e2 => .error e2)
                 | .error e2 => .error e2)
            | _ => .error .hostValue
          else if s = "eq" then
            match rest with
            | [a, b] =>
                (match eval_lisp fuel a env with
                 | .ok (va, env1) =>
                     (match eval_lisp fuel b env1 with
                      | .ok (vb, env2) =>
                          (match prim_eq [va, vb] with
                           | .ok r => .ok (r, env2)
                           | .error e2 => .error e2)
                      | .error e2 => .error e2)
                 | .error e2 => .error e2)
            | _ => .error .hostValue
          else if s = "cons" then
            match rest with
            | [a, b] =>
                (match eval_lisp fuel a env with
                 | .ok (va, env1) =>
                     (match eval_lisp fuel b env1 with
                      | .ok (vb, env2) =>
                          (match prim_cons [va, vb] with
                           | .ok r => .ok (r, env2)
                           | .error e2 => .error e2)
                      | .error e2 => .error e2)
                 | .error e2 => .error e2)
            | _ => .error .hostValue
          else if s = "car" then
            match rest with
            | [a] =>
                (match eval_lisp fuel a env with
                 | .ok (va, env1) =>
                     (match prim_car [va] with
                      | .ok r => .ok (r, env1)
                      | .error e2 => .error e2)
                 | .error e2 => .error e2)
            | _ => .error .hostValue
          else if s = "cdr" then
            match rest with
            | [a] =>
                (match eval_lisp fuel a env with
                 | .ok (va, env1) =>
                     (match prim_cdr [va] with
                      | .ok r => .ok (r, env1)
                      | .error e2 => .error e2)
                 | .error e2 => .error e2)
            | _ => .error .hostValue
          else if s = "cond" then
            match rest.foldl
                (fun (acc : Except Err (Sum Env (Value × Env))) clause =>
                  match acc with
                  | .ok (.inl env1) =>
                      (match clause with
                       | .list [t, e] =>
                           (match eval_lisp fuel t env1 with
                            | .ok (tv, env2) =>
                                if pyEqNil tv then .ok (.inl env2)
                                else
                                  (match eval_lisp fuel e env2 with
                                   | .ok (v, env3) => .ok (.inr (v, env3))
                                   | .error err => .error err)
                            | .error err => .error err)
                       | _ => .error .clauseErr)
                  | done => done) (.ok (.inl env)) with
            | .ok (.inl env1) => .ok (.list [], env1)
            | .ok (.inr (v, env1)) => .ok (v, env1)
            | .error e2 => .error e2
          else if s = "lambda" then
            match rest with
            | [ps, body] =>
                (match toParams ps with
                 | some params => .ok (.closure params body env, env)
                 | none => .error .hostType)
            | _ => .error .hostValue
          else if s = "defun" then
            match rest with
            | [nv, ps, body] =>
                (match nv, toParams ps with
                 | .sym name, some params =>
                     .ok (.sym name,
                          setAssoc env name (.closure params body env))
                 | _, _ => .error .hostType)
            | _ => .error .hostValue
          else if s = "setq" then
            match rest with
            | [nv, e] =>
                (match nv with
                 | .sym name =>
                     (match eval_lisp fuel e env with
                      | .ok (v, env1) => .ok (.sym name, setAssoc env1 name v)
                      | .error e2 => .error e2)
                 | _ => .error .hostType)
            | _ => .error .hostValue
          else applyTo (.sym s)
      | h => applyTo h

/-- The generic application step of `eval_lisp` (its final lines): a
primitive is invoked directly; a `Closure` first checks argument count
against parameter count and only then evaluates its body on a copy of the
captured environment extended with the parameter bindings; anything else is
the `unknown operator` failure. -/
def applyOp (fuel : Nat) (op : Value) (args : List Value) (env : Env) :
    Except Err (Value × Env) :=
  match op with
  | .prim p =>
      (match applyPrim p args with
       | .ok v => .ok (v, env)
       | .error e2 => .error e2)
  | .closure ps body cenv =>
      if ps.length ≠ args.length then .error .typeArgCount
      else
        (match eval_lisp fuel body (bindParams cenv ps args) with
         | .ok (v, _) => .ok (v, env)
         | .error e2 => .error e2)
  | _ => .error .nameUnknownOp

/-- The operand loop of the application path, as a standalone function:
evaluate every operand left to right, threading the environment. -/
def evalArgsD (fuel : Nat) (es : List Value) (env : Env) :
    Except Err (List Value × Env) :=
  es.foldl (fun (acc : Except Err (List Value × Env)) e =>
    match acc with
    | .ok (vs, env2) =>
        (match eval_lisp fuel e env2 with
         | .ok (v, env3) => .ok (vs ++ [v], env3)
         | .error err => .error err)
    | .error err => .error err) (.ok ([], env))

/-- `tokenize` of `lisp2.py`: space out the quote shorthand and the
parentheses, then `split()`. -/
def tokenize (s : String) : List String :=
  splitWs ((s.data.map (fun c =>
    if c = qchar then [' ', qchar, ' ']
    else if c = '(' then [' ', '(', ' ']
    else if c = ')' then [' ', ')', ' ']
    else [c])).flatten)

/-- `atomize` of `lisp2.py`: integer literal or symbol (no float parsing in
this prototype). -/
def atomize (t : String) : Value :=
  match pyParseInt t with
  | some n => .int n
  | none => .sym t

/-- Parser task: `.expr` is a `parse` call, `.loop acc` the
`while tokens[0] != ')'` list loop with the elements read so far. -/
inductive PTask where
  | expr : PTask
  | loop : List Value → PTask

/-- `parse` of `lisp2.py` (function and list loop fused on a task argument).
Unlike the other two prototypes it re-checks for exhaustion after each list
element (`unexpected EOF while reading list`), but the `while tokens[0]`
guard itself still peeks before the first element, so `["("]` dies with a
host `IndexError`. -/
def parseC : Nat → PTask → List String → Except Err (Value × List String)
  | 0, _, _ => .error .fuelOut
  | _ + 1, .expr, [] => .error .eofErr
  | fuel + 1, .expr, t :: ts =>
      if t = "(" then parseC fuel (.loop []) ts
      else if t = ")" then .error .closeErr
      else if t = qtok then
        match parseC fuel .expr ts with
        | .ok (v, rest) => .ok (.list [.sym "quote", v], rest)
        | .error e => .error e
      else .ok (atomize t, ts)
  | _ + 1, .loop _, [] => .error .hostIndex
  | fuel + 1, .loop acc, t :: ts =>
      if t = ")" then .ok (.list acc.reverse, ts)
      else
        match parseC fuel .expr (t :: ts) with
        | .ok (v, rest) =>
            if rest.isEmpty then .error .eofErr
            else parseC fuel (.loop (v :: acc)) rest
        | .error e => .error e

/-- `parse` on a token list, with fuel ample for any input (shown by
`Lisp2Parse.noFuel`-style lemmas below). -/
def parse (ts : List String) : Except Err (Value × List String) :=
  parseC (2 * ts.length + 2) .expr ts

/-- `parse_str` of `lisp2.py`: parse the first expression of the source
text (leftover tokens are ignored by the Python, too). -/
def parse_str (s : String) : Except Err Value :=
  match parse (tokenize s) with
  | .ok (v, _) => .ok v
  | .error e => .error e

/-- `run_and_print` of `lisp2.py`, minus the printing: parse one source
string and evaluate it in the given environment. -/
def run_and_print (fuel : Nat) (s : String) (env : Env) :
    Except Err (Value × Env) :=
  match parse_str s with
  | .ok ast => eval_lisp fuel ast env
  | .error e => .error e

/-- The demo driver loop of `lisp2.py`: run each source string in sequence
against one environment, returning the last value and the final
environment. -/
def runSeq (fuel : Nat) : List String → Env → Except Err (Value × Env)
  | [], env => .ok (.list [], env)
  | [s], env => run_and_print fuel s env
  | s :: rest, env =>
      match run_and_print fuel s env with
      | .ok (_, env1) => runSeq fuel rest env1
      | .error e => .error e

/-- The value of the last expression of a `runSeq` session. -/
def runVals (fuel : Nat) (srcs : List String) (env : Env) :
    Except Err Value :=
  match runSeq fuel srcs env with
  | .ok (v, _) => .ok v
  | .error e => .error e

/-- Decimal digits of a natural number, most significant first (fueled so
the recursion is structural; fuel `n + 1` always suffices). -/
def natDigs : Nat → Nat → List Char
  | 0, _ => []
  | fuel + 1, n =>
      if n < 10 then [Char.ofNat (48 + n)]
      else natDigs fuel (n / 10) ++ [Char.ofNat (48 + n % 10)]

/-- Python `str()` of an int: minus sign and decimal digits. -/
def intStr : Int → String
  | .ofNat n => String.mk (natDigs (n + 1) n)
  | .negSucc m => String.mk ('-' :: natDigs (m + 2) (m + 1))

mutual

/-- `lisp_to_str` of `lisp2.py`: `NIL` for the empty list, `False` and
`None`; `T` for `True`; parenthesised space-joined elements for a non-empty
list; the literal text otherwise.  (`str()` of a closure or primitive is a
host object repr, outside the model.) -/
def lisp_to_str : Value → String
  | .list [] => "NIL"
  | .list (x :: xs) => "(" ++ strElems (x :: xs) ++ ")"
  | .bool true => "T"
  | .bool false => "NIL"
  | .int n => intStr n
  | .sym s => s
  | .closure _ _ _ => "<Closure>"
  | .prim p => "<function " ++ p ++ ">"

/-- `' '.join` of the rendered elements. -/
def strElems : List Value → String
  | [] => ""
  | [x] => lisp_to_str x
  | x :: y :: xs => lisp_to_str x ++ " " ++ strElems (y :: xs)

end

end Lisp2

namespace Lisp3

/-- Values of `lisp3.py`.  `defun`/`lambda` build Python closures over the
live environment dict (captured by reference) that copy it at call time, so
a `fn` carries the index of its defining environment in the store of flat
environments. -/
inductive Value where
  | int : Int → Value
  | sym : String → Value
  | bool : Bool → Value
  | list : List Value → Value
  | fn : List String → Value → Nat → Value
  | prim : String → Value

abbrev Env := List (String × Value)

/-- The heap of environment dicts; an environment is addressed by index. -/
abbrev Store := List Env

/-- Errors of `lisp3.py` evaluation/parsing. -/
inductive Err where
  | typeWrongArg    -- TypeError: cons second argument must be a list
  | typeNotCallable -- TypeError: ... is not callable
  | primArity       -- TypeError: primitive called with the wrong signature
  | hostType        -- TypeError from a host operation (indexing, arithmetic)
  | hostIndex       -- IndexError (x[1], clause[0], tokens[0])
  | hostValue       -- ValueError (tuple unpacking in defun/lambda)
  | hostKey         -- KeyError (env['atom'] missing)
  | hostZero        -- ZeroDivisionError
  | floatOut        -- float arithmetic: outside the model
  | unmodelled      -- non-symbol name/parameters: outside the model
  | eofErr          -- SyntaxError: unexpected EOF
  | closeErr        -- SyntaxError: unexpected )
  | fuelOut         -- fuel exhausted: models host stack exhaustion
deriving Repr, DecidableEq

def toNum : Value → Option Int
  | .int n => some n
  | .bool b => some (if b then 1 else 0)
  | _ => none

/-- Python `== []`, the test `cond` uses. -/
def pyEqNil : Value → Bool
  | .list [] => true
  | _ => false

/-- Python `==` on `lisp3.py` values (numbers by value, `True == 1`,
lists element-wise; function objects compare by identity, modelled as never
equal). -/
def pyEqF : Nat → Value → Value → Bool
  | 0, _, _ => false
  | fuel + 1, a, b =>
      match toNum a, toNum b with
      | some na, some nb => na == nb
      | _, _ =>
          match a, b with
          | .sym s, .sym t => s == t
          | .list xs, .list ys =>
              xs.length == ys.length &&
                (List.zip xs ys).all (fun p => pyEqF fuel p.1 p.2)
          | _, _ => false

def pyEq (a b : Value) : Bool := pyEqF 1000 a b

/-- `prim_cons` of `lisp3.py`: exactly two arguments (the Python signature
enforces it), the second must be a list. -/
def prim_cons : List Value → Except Err Value
  | [a, b] =>
      match b with
      | .list l => .ok (.list (a :: l))
      | _ => .error .typeWrongArg
  | _ => .error .primArity

/-- `prim_car` of `lisp3.py`: empty list (never an error) for a non-list or
empty argument. -/
def prim_car : List Value → Except Err Value
  | [a] =>
      match a with
      | .list (x :: _) => .ok x
      | _ => .ok (.list [])
  | _ => .error .primArity

/-- `prim_cdr` of `lisp3.py`: empty list (never an error) for a non-list or
empty argument. -/
def prim_cdr : List Value → Except Err Value
  | [a] =>
      match a with
      | .list (_ :: rest) => .ok (.list rest)
      | _ => .ok (.list [])
  | _ => .error .primArity

/-- `prim_atom` of `lisp3.py`. -/
def prim_atom : List Value → Except Err Value
  | [a] =>
      .ok (if (match a with | .list l => l.isEmpty | _ => true)
           then .bool true else .list [])
  | _ => .error .primArity

/-- `prim_eq` of `lisp3.py`: Python `==`, returned as `T`/`NIL`. -/
def prim_eq : List Value → Except Err Value
  | [a, b] => .ok (if pyEq a b then .bool true else .list [])
  | _ => .error .primArity

def sumNum : List Value → Option Int
  | [] => some 0
  | v :: rest =>
      match toNum v, sumNum rest with
      | some n, some m => some (n + m)
      | _, _ => none

def prim_add (args : List Value) : Except Err Value :=
  match sumNum args with
  | some n => .ok (.int n)
  | none => .error .hostType

def prim_sub : List Value → Except Err Value
  | [] => .error .primArity
  | [a] =>
      match toNum a with
      | some n => .ok (.int (-n))
      | none => .error .hostType
  | a :: rest =>
      match toNum a with
      | none => .error .hostType
      | some n =>
          match rest.foldl (fun (acc : Option Int) v =>
              match acc, toNum v with
              | some p, some m => some (p - m)
              | _, _ => none) (some n) with
          | some r => .ok (.int r)
          | none => .error .hostType

def prim_mul (args : List Value) : Except Err Value :=
  match args.foldl (fun (acc : Option Int) v =>
      match acc, toNum v with
      | some p, some n => some (p * n)
      | _, _ => none) (some (1 : Int)) with
  | some n => .ok (.int n)
  | none => .error .hostType

/-- `prim_div` of `lisp3.py` uses Python true division `/`, which returns a
float for any actual division; with no extra operands it returns its first
argument unchanged. -/
def prim_div : List Value → Except Err Value
  | [] => .error .primArity
  | [a] => .ok a
  | a :: rest =>
      if (toNum a).isSome ∧ rest.all (fun v => (toNum v).isSome) then
        .error .floatOut
      else .error .hostType

def applyPrim : String → List Value → Except Err Value
  | "cons", args => prim_cons args
  | "car", args => prim_car args
  | "cdr", args => prim_cdr args
  | "atom", args => prim_atom args
  | "eq", args => prim_eq args
  | "+", args => prim_add args
  | "-", args => prim_sub args
  | "*", args => prim_mul args
  | "/", args => prim_div args
  | _, _ => .error .hostType

/-- `make_global_env` of `lisp3.py`, in insertion order. -/
def make_global_env : Env :=
  [("cons", .prim "cons"), ("car", .prim "car"), ("cdr", .prim "cdr"),
   ("atom", .prim "atom"), ("eq", .prim "eq"), ("+", .prim "+"),
   ("-", .prim "-"), ("*", .prim "*"), ("/", .prim "/"),
   ("T", .bool true), ("NIL", .list [])]

/-- Lookup in the environment at index `i`. -/
def envGetAt (st : Store) (i : Nat) (n : String) : Option Value :=
  match st[i]? with
  | some env => getAssoc env n
  | none => none

/-- `d[k] = v` on the environment at index `i`. -/
def envSetAt (st : Store) (i : Nat) (n : String) (v : Value) : Store :=
  match st[i]? with
  | some env => st.set i (setAssoc env n v)
  | none => st

/-- Python indexing `v[i]` as used on `cond` clauses and special forms: a
list indexes normally, a string yields a one-character string, anything else
is a host `TypeError`; out of range is a host `IndexError`. -/
def pyIndex (v : Value) (i : Nat) : Except Err Value :=
  match v with
  | .list l =>
      match l[i]? with
      | some x => .ok x
      | none => .error .hostIndex
  | .sym s =>
      match s.data[i]? with
      | some c => .ok (.sym (String.mk [c]))
      | none => .error .hostIndex
  | _ => .error .hostType

/-- A parameter list must be a list of symbols; anything else is outside
the model. -/
def toParams : Value → Option (List String)
  | .list l =>
      l.foldr (fun v acc =>
        match v, acc with
        | .sym s, some ss => some (s :: ss)
        | _, _ => none) (some [])
  | _ => none

/-- `local_env = env.copy(); for k, v in zip(params, args): local_env[k] = v`
(`zip` truncates: no arity check in `lisp3.py`). -/
def bindParams (base : Env) : List String → List Value → Env
  | p :: ps, v :: vs => bindParams (setAssoc base p v) ps vs
  | _, _ => base

/-- `eval_lisp` of `lisp3.py`.  The store of environment dicts is threaded
explicitly; a symbol that no binding resolves evaluates to itself
(`env.get(x, x)`); `defun` mutates the defining environment in place; a
call copies the captured environment into a fresh store slot. -/
def eval_lisp : Nat → Value → Nat → Store → Except Err (Value × Store)
  | 0, _, _, _ => .error .fuelOut
  | _ + 1, .sym s, cid, st => .ok ((envGetAt st cid s).getD (.sym s), st)
  | _ + 1, .int n, _, st => .ok (.int n, st)
  | _ + 1, .bool b, _, st => .ok (.bool b, st)
  | _ + 1, .fn ps b e, _, st => .ok (.fn ps b e, st)
  | _ + 1, .prim p, _, st => .ok (.prim p, st)
  | _ + 1, .list [], _, st => .ok (.list [], st)
  | fuel + 1, .list (head :: rest), cid, st =>
      let call : Value → List Value → Store → Except Err (Value × Store) :=
        fun f vs st2 =>
          match f with
          | .prim p =>
              (match applyPrim p vs with
               | .ok v => .ok (v, st2)
               | .error e2 => .error e2)
          | .fn ps body fcid =>
              let localEnv := bindParams ((st2[fcid]?).getD []) ps vs
              eval_lisp fuel body st2.length (st2 ++ [localEnv])
          | _ => .error .typeNotCallable
      let evalAll : List Value → Store →
          Except Err (List Value × Store) := fun es st1 =>
        es.foldl (fun (acc : Except Err (List Value × Store)) e =>
          match acc with
          | .ok (vs, st2) =>
              (match eval_lisp fuel e cid st2 with
               | .ok (v, st3) => .ok (vs ++ [v], st3)
               | .error err => .error err)
          | .error err => .error err) (.ok ([], st1))
      let applyTo : Value → Except Err (Value × Store) := fun h =>
        match eval_lisp fuel h cid st with
        | .ok (f, st1) =>
            (match evalAll rest st1 with
             | .ok (vs, st2) => call f vs st2
             | .error e2 => .error e2)
        | .error e2 => .error e2
      match head with
      | .sym s =>
          if s = "quote" then
            match rest with
            | e :: _ => .ok (e, st)
            | [] => .error .hostIndex
          else if s = "atom" then
            match envGetAt st cid "atom" with
            | none => .error .hostKey
            | some f =>
                (match rest with
                 | e :: _ =>
                     (match eval_lisp fuel e cid st with
                      | .ok (v, st1) => call f [v] st1
                      | .error e2 => .error e2)
                 | [] => .error .hostIndex)
          else if s = "eq" then
            match envGetAt st cid "eq" with
            | none => .error .hostKey
            | some f =>
                (match rest with
                 | a :: b :: _ =>
                     (match eval_lisp fuel a cid st with
                      | .ok (va, st1) =>
                          (match eval_lisp fuel b cid st1 with
                           | .ok (vb, st2) => call f [va, vb] st2
                           | .error e2 => .error e2)
                      | .error e2 => .error e2)
                 | [a] =>
                     (match eval_lisp fuel a cid st with
                      | .ok (_, _) => .error .hostIndex
                      | .error e2 => .error e2)
                 | [] => .error .hostIndex)
          else if s = "cons" ∨ s = "car" ∨ s = "cdr" then
            match evalAll rest st with
            | .ok (vs, st1) =>
                (match envGetAt st1 cid s with
                 | some f => call f vs st1
                 | none => .error .hostKey)
            | .error e2 => .error e2
          else if s = "cond" then
            match rest.foldl
                (fun (acc : Except Err (Sum Store (Value × Store))) clause =>
                  match acc with
                  | .ok (.inl st1) =>
                      (match pyIndex clause 0 with
                       | .ok t =>
                           (match eval_lisp fuel t cid st1 with
                            | .ok (tv, st2) =>
                                if pyEqNil tv then .ok (.inl st2)
                                else
                                  (match pyIndex clause 1 with
                                   | .ok e =>
                                       (match eval_lisp fuel e cid st2 with
                                        | .ok (v, st3) => .ok (.inr (v, st3))
                                        | .error err => .error err)
                                   | .error err => .error err)
                            | .error err => .error err)
                       | .error err => .error err)
                  | done => done) (.ok (.inl st)) with
            | .ok (.inl st1) => .ok (.list [], st1)
            | .ok (.inr (v, st1)) => .ok (v, st1)
            | .error e2 => .error e2
          else if s = "defun" then
            match rest with
            | [nv, ps, body] =>
                (match nv, toParams ps with
                 | .sym name, some params =>
                     .ok (.sym name,
                          envSetAt st cid name (.fn params body cid))
                 | _, _ => .error .unmodelled)
            | _ => .error .hostValue
          else if s = "lambda" then
            match rest with
            | [ps, body] =>
                (match toParams ps with
                 | some params => .ok (.fn params body cid, st)
                 | none => .error .unmodelled)
            | _ => .error .hostValue
          else applyTo (.sym s)
      | h => applyTo h

/-- `tokenize` of `lisp3.py`: the regex scanner — parens and the quote
shorthand are single-character tokens, any other maximal run of
non-whitespace, non-paren, non-quote characters is one token. -/
def scanAux : List Char → List Char → List String
  | [], [] => []
  | [], acc => [String.mk acc.reverse]
  | c :: cs, acc =>
      if c = '(' ∨ c = ')' ∨ c = qchar then
        match acc with
        | [] => String.mk [c] :: scanAux cs []
        | _ => String.mk acc.reverse :: String.mk [c] :: scanAux cs []
      else if wsChar c then
        match acc with
        | [] => scanAux cs []
        | _ => String.mk acc.reverse :: scanAux cs []
      else scanAux cs (c :: acc)

def tokenize (s : String) : List String := scanAux s.data []

/-- `atom` of `lisp3.py`: integer literal, else symbol.  (The float branch
is outside the model; a float token stays a symbol.) -/
def atom (t : String) : Value :=
  match pyParseInt t with
  | some n => .int n
  | none => .sym t

inductive PTask where
  | expr : PTask
  | loop : List Value → PTask

/-- `parse` of `lisp3.py` (function and list loop fused on a task
argument).  Like `lisp.py`, the list loop peeks `tokens[0]` without an
exhaustion check, so running out of tokens mid-list is a host
`IndexError`. -/
def parseC : Nat → PTask → List String → Except Err (Value × List String)
  | 0, _, _ => .error .fuelOut
  | _ + 1, .expr, [] => .error .eofErr
  | fuel + 1, .expr, t :: ts =>
      if t = "(" then parseC fuel (.loop []) ts
      else if t = qtok then
        match parseC fuel .expr ts with
        | .ok (v, rest) => .ok (.list [.sym "quote", v], rest)
        | .error e => .error e
      else if t = ")" then .error .closeErr
      else .ok (atom t, ts)
  | _ + 1, .loop _, [] => .error .hostIndex
  | fuel + 1, .loop acc, t :: ts =>
      if t = ")" then .ok (.list acc.reverse, ts)
      else
        match parseC fuel .expr (t :: ts) with
        | .ok (v, rest) => parseC fuel (.loop (v :: acc)) rest
        | .error e => .error e

def parse (ts : List String) : Except Err (Value × List String) :=
  parseC (2 * ts.length + 2) .expr ts

/-- `lisp_to_str` of `lisp3.py`: note there is no `False`/`None` case — the
final branch is `str(v)`, so Python `False` renders as `"False"`. -/
def natDigs : Nat → Nat → List Char
  | 0, _ => []
  | fuel + 1, n =>
      if n < 10 then [Char.ofNat (48 + n)]
      else natDigs fuel (n / 10) ++ [Char.ofNat (48 + n % 10)]

def intStr : Int → String
  | .ofNat n => String.mk (natDigs (n + 1) n)
  | .negSucc m => String.mk ('-' :: natDigs (m + 2) (m + 1))

mutual

def lisp_to_str : Value → String
  | .list [] => "NIL"
  | .bool true => "T"
  | .bool false => "False"
  | .list (x :: xs) => "(" ++ strElems (x :: xs) ++ ")"
  | .int n => intStr n
  | .sym s => s
  | .fn _ _ _ => "<function>"
  | .prim p => "<function " ++ p ++ ">"

def strElems : List Value → String
  | [] => ""
  | [x] => lisp_to_str x
  | x :: y :: xs => lisp_to_str x ++ " " ++ strElems (y :: xs)

end

/-- `run` of `lisp3.py`, minus the printing: tokenize, parse the first
expression, evaluate it against the environment at index 0. -/
def run (fuel : Nat) (src : String) (st : Store) :
    Except Err (Value × Store) :=
  match parse (tokenize src) with
  | .ok (ast, _) => eval_lisp fuel ast 0 st
  | .error e => .error e

/-- The test driver loop of `lisp3.py`: run each source string in sequence
against one store rooted at `make_global_env`. -/
def runSeq (fuel : Nat) : List String → Store → Except Err (Value × Store)
  | [], st => .ok (.list [], st)
  | [s], st => run fuel s st
  | s :: rest, st =>
      match run fuel s st with
      | .ok (_, st1) => runSeq fuel rest st1
      | .error e => .error e

def runVals (fuel : Nat) (srcs : List String) : Except Err Value :=
  match runSeq fuel srcs [make_global_env] with
  | .ok (v, _) => .ok v
  | .error e => .error e

end Lisp3

/-- A character that the `lisp2.py` tokenizer keeps inside a token: not
whitespace, not a parenthesis, not the quote shorthand. -/
def plainChar (c : Char) : Bool :=
  !(wsChar c) && !(c = '(') && !(c = ')') && !(c = qchar)

namespace Lisp2

/-- The character expansion step of `tokenize`, on a raw character list. -/
def expandChars (cs : List Char) : List Char :=
  (cs.map (fun c =>
    if c = qchar then [' ', qchar, ' ']
    else if c = '(' then [' ', '(', ' ']
    else if c = ')' then [' ', ')', ' ']
    else [c])).flatten

mutual

/-- The token sequence `tokenize ∘ lisp_to_str` produces for a printable
value (proved below for `PureVal` values). -/
def toksOf : Value → List String
  | .list [] => ["NIL"]
  | .list (x :: xs) => "(" :: toksElems (x :: xs) ++ [")"]
  | .bool true => ["T"]
  | .bool false => ["NIL"]
  | .int n => [intStr n]
  | .sym s => [s]
  | .closure _ _ _ => []
  | .prim _ => []

def toksElems : List Value → List String
  | [] => []
  | x :: xs => toksOf x ++ toksElems xs

end

/-- Values whose printed rendering round-trips through the parser: integers,
symbols that re-tokenize as one plain token and are not integer literals,
and non-empty lists of such values.  The empty list and the boolean
sentinels are excluded: they print as `NIL`/`T`, which re-parse as
symbols. -/
inductive PureVal : Value → Prop where
  | int (n : Int) : PureVal (.int n)
  | sym (s : String) : s.data ≠ [] → s.data.all plainChar = true →
      pyParseInt s = none → PureVal (.sym s)
  | list (xs : List Value) : xs ≠ [] → (∀ x ∈ xs, PureVal x) →
      PureVal (.list xs)

end Lisp2

/-- Boundary condition for the splitter lemmas: the continuation is empty
or starts with whitespace. -/
def WsB (cs : List Char) : Prop :=
  cs = [] ∨ ∃ c cs2, cs = c :: cs2 ∧ wsChar c = true

/-! ## Helper lemmas shared by the claim theorems -/

theorem getAssoc_setAssoc_self {α : Type} (m : List (String × α)) (n : String)
    (v : α) : getAssoc (setAssoc m n v) n = some v := by
  induction m with
  | nil => simp [setAssoc, getAssoc]
  | cons kv rest ih =>
      obtain ⟨k, w⟩ := kv
      by_cases h : k = n <;> simp [setAssoc, getAssoc, h, ih]

theorem getAssoc_setAssoc_ne {α : Type} (m : List (String × α)) (k n : String)
    (v : α) (h : k ≠ n) : getAssoc (setAssoc m n v) k = getAssoc m k := by
  induction m with
  | nil => simp [setAssoc, getAssoc, Ne.symm h]
  | cons kv rest ih =>
      obtain ⟨k2, w⟩ := kv
      by_cases h2 : k2 = n
      · subst h2
        simp [setAssoc, getAssoc, Ne.symm h]
      · by_cases h3 : k2 = k <;> simp [setAssoc, getAssoc, h, h2, h3, ih]

theorem Lisp1.length_storeSetAt (st : Lisp1.Store) (i : Nat) (n : String)
    (v : Lisp1.Value) : (Lisp1.storeSetAt st i n v).length = st.length := by
  unfold Lisp1.storeSetAt
  cases st[i]? <;> simp

theorem Lisp1.storeSetAt_get_ne (st : Lisp1.Store) (i j : Nat) (n : String)
    (v : Lisp1.Value) (h : j ≠ i) :
    (Lisp1.storeSetAt st i n v)[j]? = st[j]? := by
  unfold Lisp1.storeSetAt
  cases st[i]? <;> simp [List.getElem?_set_ne (Ne.symm h)]

theorem Lisp1.storeSetAt_get_self (st : Lisp1.Store) (i : Nat) (n : String)
    (v : Lisp1.Value) (fr : Lisp1.Frame) (h : st[i]? = some fr) :
    (Lisp1.storeSetAt st i n v)[i]? = some ⟨setAssoc fr.map n v, fr.parent⟩ := by
  unfold Lisp1.storeSetAt
  rw [h]
  have hi : i < st.length := by
    by_contra hcon
    rw [List.getElem?_eq_none (by omega)] at h
    exact Option.noConfusion h
  rw [List.getElem?_set_eq_of_lt _ hi]

/-- `Env.find` is exactly the first frame owning the symbol along the
visited parent chain. -/
theorem Lisp1.findF_eq_chain (fuel : Nat) (st : Lisp1.Store) (i : Nat)
    (n : String) :
    Lisp1.findF fuel st i n =
      (Lisp1.chainF fuel st i).find? (fun g => Lisp1.ownsB st g n) := by
  induction fuel generalizing i with
  | zero => simp [Lisp1.findF, Lisp1.chainF]
  | succ fuel ih =>
      simp only [Lisp1.findF, Lisp1.chainF]
      cases h : st[i]? with
      | none => simp [List.find?, Lisp1.ownsB, Lisp1.frameGetAt, h]
      | some fr =>
          by_cases ho : (getAssoc fr.map n).isSome
          · simp [List.find?, Lisp1.ownsB, Lisp1.frameGetAt, h, ho]
          · cases hp : fr.parent with
            | none =>
                simp [List.find?, Lisp1.ownsB, Lisp1.frameGetAt, h, hp, ho]
            | some p =>
                simp [List.find?, Lisp1.ownsB, Lisp1.frameGetAt, h, hp, ho, ih]

/-- A frame index returned by `Env.find` exists and owns the symbol. -/
theorem Lisp1.findF_some_owns (fuel : Nat) (st : Lisp1.Store) (i g : Nat)
    (n : String) (h : Lisp1.findF fuel st i n = some g) :
    ∃ fr, st[g]? = some fr ∧ (getAssoc fr.map n).isSome = true := by
  induction fuel generalizing i with
  | zero => simp [Lisp1.findF] at h
  | succ fuel ih =>
      simp only [Lisp1.findF] at h
      cases he : st[i]? with
      | none => simp [he] at h
      | some fr =>
          simp only [he] at h
          by_cases ho : (getAssoc fr.map n).isSome
          · rw [if_pos ho] at h
            injection h with h2
            subst h2
            exact ⟨fr, he, ho⟩
          · rw [if_neg ho] at h
            cases hp : fr.parent with
            | none => simp [hp] at h
            | some p => rw [hp] at h; exact ih p h

/-- Base equation of the `define`/`set!` branch of `lisp.py` `eval_lisp`,
with the in-place-or-innermost binding step written as `defineBind`. -/
theorem Lisp1.eval_define_eq (hd : String) (hhd : hd = "define" ∨ hd = "set!")
    (fuel : Nat) (st : Lisp1.Store) (f : Nat) (name : String)
    (e : Lisp1.Value) :
    Lisp1.eval_lisp (fuel + 1) (.list [.sym hd, .sym name, e]) f st =
      match Lisp1.eval_lisp fuel e f st with
      | .ok (v, st1) => .ok (.sym name, Lisp1.defineBind st1 f name v)
      | .error err => .error err := by
  have base :
      ∀ h2 : String, h2 = "define" ∨ h2 = "set!" →
        Lisp1.eval_lisp (fuel + 1) (.list [.sym h2, .sym name, e]) f st =
          match Lisp1.eval_lisp fuel e f st with
          | .ok (v, st1) =>
              (match Lisp1.findEnv st1 f name with
               | some g => .ok (.sym name, Lisp1.storeSetAt st1 g name v)
               | none => .ok (.sym name, Lisp1.storeSetAt st1 f name v))
          | .error err => .error err := by
    rintro h2 (rfl | rfl) <;> rfl
  rw [base hd hhd]
  cases Lisp1.eval_lisp fuel e f st with
  | ok p =>
      obtain ⟨v, st1⟩ := p
      simp only [Lisp1.defineBind]
      cases Lisp1.findEnv st1 f name <;> simp
  | error err => simp

/-! ## Claim theorems -/

/-- C1: the claim — a closure captures its defining frame by reference, so
after `(define x 1)`, `(define f (lambda () x))`, `(define x 2)`, calling
`f` returns 2 — holds for `lisp.py` (whose `Procedure` keeps the `Env`
itself and whose call frame chains to that captured frame), but `lisp2.py`
passes `env.copy()` to its `Closure`, so the same session written with
`setq` returns 1 there: the snapshot never sees the later mutation.  The
spec names reference capture as the intended semantics and copy capture a
defect, so the `lisp2.py` behaviour is the code bug this theorem pins
down. -/
theorem C1_closure_capture_divergence :
    Lisp1.run 100 "(define x 1) (define f (lambda () x)) (define x 2) (f)"
        = .ok (.int 2) ∧
    Lisp2.runVals 100
        ["(setq x 1)", "(setq f (lambda () x))", "(setq x 2)", "(f)"]
        Lisp2.make_global_env = .ok (.int 1) :=
  ⟨rfl, rfl⟩

/-- C10: `eq` cannot tell the boolean-true sentinel from the integer 1:
`(eq T 1)` evaluates to `T` in both `lisp2.py` and `lisp3.py` on the
environment `make_global_env` builds, because the primitive compares with
host equality, under which `True == 1`. -/
theorem C10_eq_conflates_true_and_one :
    Lisp3.runVals 50 ["(eq T 1)"] = .ok (.bool true) ∧
    Lisp2.runVals 50 ["(eq T 1)"] Lisp2.make_global_env = .ok (.bool true) ∧
    Lisp2.pyEq (.bool true) (.int 1) = true ∧
    Lisp3.pyEq (.bool true) (.int 1) = true :=
  ⟨rfl, rfl, rfl, rfl⟩

/-- C4: counterexample to the claim as stated — in `lisp3.py` an unbound
symbol does not raise `NameError`; evaluating the program `y` against the
fresh global environment returns the symbol `y` itself
(`env.get(x, x)` self-evaluating fallback). -/
theorem C4_unknown_symbol_counterexample :
    Lisp3.runVals 50 ["y"] = .ok (.sym "y") := rfl

/-- C4 (amended): in `lisp.py`, evaluating a symbol resolves it by walking
the frame chain from the innermost frame outward — the result is exactly
`find?` of the first owning frame along the visited chain, which starts at
the current frame — and evaluation fails with `NameError` when no visited
frame owns the symbol; the symbol is never returned as its own value.  In
`lisp2.py`/`lisp3.py` there is no chain (environments are flat dicts) and an
unbound symbol evaluates to itself. -/
theorem C4_symbol_resolution :
    (∀ (fuel : Nat) (st : Lisp1.Store) (f : Nat) (name : String),
      Lisp1.eval_lisp (fuel + 1) (.sym name) f st =
        match (Lisp1.chainIds st f).find? (fun g => Lisp1.ownsB st g name) with
        | some g =>
            (match Lisp1.frameGetAt st g name with
             | some v => .ok (v, st)
             | none => .error .hostKey)
        | none => .error .nameErr) ∧
    (∀ (st : Lisp1.Store) (f : Nat), (Lisp1.chainIds st f).head? = some f) ∧
    (∀ (fuel : Nat) (st : Lisp3.Store) (cid : Nat) (s : String),
      Lisp3.eval_lisp (fuel + 1) (.sym s) cid st =
        .ok ((Lisp3.envGetAt st cid s).getD (.sym s), st)) := by
  refine ⟨fun fuel st f name => ?_, fun st f => rfl, fun _ _ _ _ => rfl⟩
  simp only [Lisp1.eval_lisp, Lisp1.findEnv, Lisp1.chainIds,
    Lisp1.findF_eq_chain]

/-- C2: a `define`/`set!` form of `lisp.py` first evaluates the value
expression, then binds through the single §4.3 rule (`defineBind`): the
binding is mutated in place in the owning frame `find` locates — all other
frames untouched — and otherwise created in the current innermost frame;
the form returns the bound Symbol, not the value.  `lisp2.py`'s `setq`
behaves identically on its flat one-frame environments. -/
theorem C2_define_binds_and_returns_symbol :
    (∀ (hd : String), hd = "define" ∨ hd = "set!" →
      ∀ (fuel : Nat) (st : Lisp1.Store) (f : Nat) (name : String)
        (e : Lisp1.Value),
      Lisp1.eval_lisp (fuel + 1) (.list [.sym hd, .sym name, e]) f st =
        match Lisp1.eval_lisp fuel e f st with
        | .ok (v, st1) => .ok (.sym name, Lisp1.defineBind st1 f name v)
        | .error err => .error err) ∧
    (∀ (fuel : Nat) (env : Lisp2.Env) (name : String) (e : Lisp2.Value),
      Lisp2.eval_lisp (fuel + 1) (.list [.sym "setq", .sym name, e]) env =
        match Lisp2.eval_lisp fuel e env with
        | .ok (v, env1) => .ok (.sym name, setAssoc env1 name v)
        | .error err => .error err) ∧
    (∀ (st : Lisp1.Store) (f : Nat) (name : String) (v : Lisp1.Value)
        (g : Nat), Lisp1.findEnv st f name = some g →
      Lisp1.frameGetAt (Lisp1.defineBind st f name v) g name = some v ∧
      ∀ j, j ≠ g → (Lisp1.defineBind st f name v)[j]? = st[j]?) ∧
    (∀ (st : Lisp1.Store) (f : Nat) (name : String) (v : Lisp1.Value)
        (fr : Lisp1.Frame),
      Lisp1.findEnv st f name = none → st[f]? = some fr →
      Lisp1.frameGetAt (Lisp1.defineBind st f name v) f name = some v ∧
      ∀ j, j ≠ f → (Lisp1.defineBind st f name v)[j]? = st[j]?) := by
  refine ⟨Lisp1.eval_define_eq, fun _ _ _ _ => rfl, ?_, ?_⟩
  · intro st f name v g h
    obtain ⟨fr, hg, _⟩ := Lisp1.findF_some_owns _ st f g name h
    constructor
    · simp only [Lisp1.defineBind, h, Lisp1.frameGetAt,
        Lisp1.storeSetAt_get_self st g name v fr hg,
        getAssoc_setAssoc_self]
    · intro j hj
      simp only [Lisp1.defineBind, h, Lisp1.storeSetAt_get_ne st g j name v hj]
  · intro st f name v fr hnone hf
    constructor
    · simp only [Lisp1.defineBind, hnone, Lisp1.frameGetAt,
        Lisp1.storeSetAt_get_self st f name v fr hf,
        getAssoc_setAssoc_self]
    · intro j hj
      simp only [Lisp1.defineBind, hnone,
        Lisp1.storeSetAt_get_ne st f j name v hj]

/-- C2 witness: on a two-frame chain where the outer frame owns `a`,
`defineBind` from the inner frame mutates the owning outer frame. -/
theorem C2_define_binds_and_returns_symbol_witness :
    Lisp1.frameGetAt
        (Lisp1.defineBind
          [⟨[("a", .int 1)], none⟩, ⟨[("b", .int 2)], some 0⟩]
          1 "a" (.int 5)) 0 "a" = some (.int 5) :=
  (C2_define_binds_and_returns_symbol.2.2.1
    [⟨[("a", .int 1)], none⟩, ⟨[("b", .int 2)], some 0⟩]
    1 "a" (.int 5) 0 rfl).1

/-- C3: counterexample to the claim as stated — the test position of
`lisp.py`'s `if` does not treat every non-empty-list value as true: the
integer 0 is falsy there, so `(if 0 1 2)` evaluates to 2, not 1. -/
theorem C3_if_zero_counterexample :
    Lisp1.run 100 "(if 0 1 2)" = .ok (.int 2) := rfl

/-- C3 (amended): in the test position of every `cond` clause
(`lisp2.py`/`lisp3.py`) a value is truthy exactly when it is not the empty
list — in particular 0 is truthy there, as the concrete `cond` runs show,
and the `!= []` test agrees with the general Python equality model — but
`lisp.py`'s `if` branches on host truthiness (`pyTruthy`), under which 0,
the empty string, boolean false and the empty list all select the
alternative. -/
theorem C3_truthiness :
    (∀ v : Lisp2.Value, Lisp2.pyEqNil v = false ↔ v ≠ Lisp2.Value.list []) ∧
    (∀ (fuel : Nat) (v : Lisp2.Value),
      Lisp2.pyEqF (fuel + 1) v (.list []) = Lisp2.pyEqNil v) ∧
    (∀ v : Lisp3.Value, Lisp3.pyEqNil v = false ↔ v ≠ Lisp3.Value.list []) ∧
    Lisp2.runVals 50 ["(cond (0 1) (T 2))"] Lisp2.make_global_env
      = .ok (.int 1) ∧
    Lisp3.runVals 50 ["(cond (0 1) (T 2))"] = .ok (.int 1) ∧
    Lisp1.pyTruthy (.int 0) = false ∧
    Lisp1.pyTruthy (.sym "") = false ∧
    Lisp1.pyTruthy (.bool false) = false ∧
    Lisp1.pyTruthy (.list []) = false ∧
    (∀ (fuel : Nat) (st : Lisp1.Store) (f : Nat) (t c a : Lisp1.Value),
      Lisp1.eval_lisp (fuel + 1) (.list [.sym "if", t, c, a]) f st =
        match Lisp1.eval_lisp fuel t f st with
        | .ok (tv, st1) =>
            Lisp1.eval_lisp fuel (if Lisp1.pyTruthy tv then c else a) f st1
        | .error e => .error e) := by
  refine ⟨fun v => ?_, fun fuel v => ?_, fun v => ?_,
    rfl, rfl, rfl, rfl, rfl, rfl, fun _ _ _ _ _ _ => rfl⟩
  · cases v with
    | list l => cases l <;> simp [Lisp2.pyEqNil]
    | _ => simp [Lisp2.pyEqNil]
  · cases v with
    | list l => cases l <;> rfl
    | _ => rfl
  · cases v with
    | list l => cases l <;> simp [Lisp3.pyEqNil]
    | _ => simp [Lisp3.pyEqNil]

/-- C3 witness: the truthiness characterisation applied at the integer 0 —
in a `cond` test, 0 is not the empty list, hence truthy. -/
theorem C3_truthiness_witness :
    Lisp2.pyEqNil (Lisp2.Value.int 0) = false :=
  (C3_truthiness.1 (.int 0)).mpr (by simp)

/-- C5: counterexample to the claim as stated — `lisp.py` applies a
`Procedure` with no arity check (`zip` truncates), so
`((lambda (x y) x) 1)` returns 1 instead of raising. -/
theorem C5_no_arity_check_counterexample :
    Lisp1.run 100 "((lambda (x y) x) 1)" = .ok (.int 1) := rfl

/-- C5 (amended): `lisp2.py`'s application step raises the argument-count
`TypeError` exactly when the argument count differs from the closure's
parameter count, and it does so before the body is touched (the error is
independent of fuel, i.e. of any evaluation at all); on matching counts it
proceeds to evaluate the body on the parameter-extended copy of the
captured environment.  `lisp.py` and `lisp3.py` have no such check: their
`zip`-binding silently drops the mismatch, as the `lisp3.py` run shows. -/
theorem C5_closure_arity :
    (∀ (fuel : Nat) (ps : List String) (body : Lisp2.Value)
        (cenv : Lisp2.Env) (args : List Lisp2.Value) (env : Lisp2.Env),
      Lisp2.applyOp fuel (.closure ps body cenv) args env =
        if ps.length ≠ args.length then .error .typeArgCount
        else
          (match Lisp2.eval_lisp fuel body (Lisp2.bindParams cenv ps args) with
           | .ok (v, _) => .ok (v, env)
           | .error e => .error e)) ∧
    (∀ (ps : List String) (body : Lisp2.Value) (cenv : Lisp2.Env)
        (args : List Lisp2.Value) (env : Lisp2.Env),
      ps.length ≠ args.length →
      ∀ fuel : Nat,
        Lisp2.applyOp fuel (.closure ps body cenv) args env
          = .error .typeArgCount) ∧
    (∀ (fuel : Nat) (hl rest : List Lisp2.Value) (env : Lisp2.Env),
      Lisp2.eval_lisp (fuel + 1) (.list (.list hl :: rest)) env =
        match Lisp2.eval_lisp fuel (.list hl) env with
        | .ok (op, env1) =>
            (match Lisp2.evalArgsD fuel rest env1 with
             | .ok (vs, env2) => Lisp2.applyOp fuel op vs env2
             | .error e2 => .error e2)
        | .error e2 => .error e2) ∧
    Lisp2.runVals 50 ["((lambda (x y) x) 1)"] Lisp2.make_global_env
      = .error .typeArgCount ∧
    Lisp3.runVals 50 ["((lambda (x y) x) 1)"] = .ok (.int 1) := by
  refine ⟨fun _ _ _ _ _ _ => rfl, ?_, fun _ _ _ _ => rfl, rfl, rfl⟩
  intro ps body cenv args env h fuel
  simp [Lisp2.applyOp, h]

/-- C5 witness: a two-parameter closure applied to one argument fails with
the argument-count error even with zero fuel (no evaluation happens). -/
theorem C5_closure_arity_witness :
    Lisp2.applyOp 0 (.closure ["x", "y"] (.sym "x") []) [.int 1] []
      = .error .typeArgCount :=
  C5_closure_arity.2.1 ["x", "y"] (.sym "x") [] [.int 1] [] (by decide) 0

/-- C6: counterexample to the claim as stated — `lisp.py`'s `cons` never
raises: a non-list second argument is wrapped, so `(cons 1 2)` evaluates to
the list `(1 2)`. -/
theorem C6_cons_wraps_counterexample :
    Lisp1.run 100 "(cons 1 2)" = .ok (.list [.int 1, .int 2]) := rfl

/-- C6 (amended): in `lisp2.py` and `lisp3.py`, `cons a b` fails with the
wrong-argument-type `TypeError` exactly when `b` is not a list and
otherwise prepends `a` to `b`; `lisp.py`'s `cons` instead wraps a non-list
`b` into a one-element list and never raises. -/
theorem C6_cons_type_check :
    (∀ a b : Lisp2.Value, Lisp2.prim_cons [a, b] =
      match b with
      | .list l => .ok (.list (a :: l))
      | _ => .error .typeWrongArg) ∧
    (∀ a b : Lisp3.Value, Lisp3.prim_cons [a, b] =
      match b with
      | .list l => .ok (.list (a :: l))
      | _ => .error .typeWrongArg) ∧
    (∀ a b : Lisp1.Value, Lisp1.applyPrim "cons" [a, b] =
      .ok (.list (a :: (match b with | .list l => l | _ => [b])))) ∧
    Lisp2.runVals 50 ["(cons 1 2)"] Lisp2.make_global_env
      = .error .typeWrongArg ∧
    Lisp3.runVals 50 ["(cons 1 2)"] = .error .typeWrongArg :=
  ⟨fun _ _ => rfl, fun _ _ => rfl, fun _ _ => rfl, rfl, rfl⟩

/-- C7: counterexample to the claim as stated — `lisp.py`'s `car` is not
lenient: `(car 5)` raises a host `TypeError` (Python `5[0]`) instead of
returning `NIL`. -/
theorem C7_car_raises_counterexample :
    Lisp1.run 100 "(car 5)" = .error .hostType := rfl

/-- C7 (amended): in `lisp2.py` and `lisp3.py`, `car`/`cdr` of a non-list
or empty-list argument return the empty list and never raise — the
concrete `(car 5)` runs return `NIL` — but `lisp.py`'s `car`/`cdr` index
and slice the host value directly: `car` of a non-sequence raises a host
`TypeError`, `car` of the empty list a host `IndexError`. -/
theorem C7_car_cdr_leniency :
    (∀ a : Lisp2.Value, Lisp2.prim_car [a] =
      .ok (match a with | .list (x :: _) => x | _ => .list [])) ∧
    (∀ a : Lisp2.Value, Lisp2.prim_cdr [a] =
      .ok (match a with | .list (_ :: r) => .list r | _ => .list [])) ∧
    (∀ a : Lisp3.Value, Lisp3.prim_car [a] =
      .ok (match a with | .list (x :: _) => x | _ => .list [])) ∧
    (∀ a : Lisp3.Value, Lisp3.prim_cdr [a] =
      .ok (match a with | .list (_ :: r) => .list r | _ => .list [])) ∧
    Lisp2.runVals 50 ["(car 5)"] Lisp2.make_global_env = .ok (.list []) ∧
    Lisp3.runVals 50 ["(car 5)"] = .ok (.list []) ∧
    Lisp1.applyPrim "car" [.int 5] = .error .hostType ∧
    Lisp1.applyPrim "car" [.list []] = .error .hostIndex ∧
    Lisp1.applyPrim "cdr" [.int 5] = .error .hostType := by
  refine ⟨fun a => ?_, fun a => ?_, fun a => ?_, fun a => ?_,
    rfl, rfl, rfl, rfl, rfl⟩ <;>
    cases a with
    | list l => cases l <;> rfl
    | _ => rfl

/-- Any successful parse consumes at least one token. -/
theorem Lisp2.parseC_consume (fuel : Nat) :
    ∀ (task : Lisp2.PTask) (ts : List String) (v : Lisp2.Value)
      (rest : List String),
      Lisp2.parseC fuel task ts = .ok (v, rest) → rest.length < ts.length := by
  induction fuel with
  | zero => intro task ts v rest h; simp [Lisp2.parseC] at h
  | succ fuel ih =>
      intro task ts v rest h
      match task, ts with
      | .expr, [] => simp [Lisp2.parseC] at h
      | .expr, t :: ts =>
          simp only [Lisp2.parseC] at h
          split at h
          · have := ih _ _ _ _ h
            simp only [List.length_cons]
            omega
          · split at h
            · simp at h
            · split at h
              · cases hin : Lisp2.parseC fuel .expr ts with
                | ok p =>
                    obtain ⟨v2, r2⟩ := p
                    rw [hin] at h
                    simp only [Except.ok.injEq, Prod.mk.injEq] at h
                    obtain ⟨-, rfl⟩ := h
                    have := ih _ _ _ _ hin
                    simp only [List.length_cons]
                    omega
                | error e => rw [hin] at h; simp at h
              · simp only [Except.ok.injEq, Prod.mk.injEq] at h
                obtain ⟨-, rfl⟩ := h
                simp
      | .loop acc, [] => simp [Lisp2.parseC] at h
      | .loop acc, t :: ts =>
          simp only [Lisp2.parseC] at h
          split at h
          · simp only [Except.ok.injEq, Prod.mk.injEq] at h
            obtain ⟨-, rfl⟩ := h
            simp
          · cases hin : Lisp2.parseC fuel .expr (t :: ts) with
            | ok p =>
                obtain ⟨v2, r2⟩ := p
                rw [hin] at h
                dsimp only at h
                by_cases hre : r2.isEmpty
                · rw [if_pos hre] at h; simp at h
                · rw [if_neg hre] at h
                  have h1 := ih _ _ _ _ hin
                  have h2 := ih _ _ _ _ h
                  omega
            | error e => rw [hin] at h; simp at h

/-- The fuel bounds `2·|tokens| + 1` (expression position) and
`2·|tokens| + 2` (list loop) are enough: `parseC` never reports fuel
exhaustion under them. -/
theorem Lisp2.parseC_noFuel (fuel : Nat) :
    (∀ ts : List String, 2 * ts.length + 1 ≤ fuel →
      Lisp2.parseC fuel .expr ts ≠ .error .fuelOut) ∧
    (∀ (acc : List Lisp2.Value) (ts : List String), 2 * ts.length + 2 ≤ fuel →
      Lisp2.parseC fuel (.loop acc) ts ≠ .error .fuelOut) := by
  induction fuel with
  | zero => exact ⟨fun ts hlen => by omega, fun acc ts hlen => by omega⟩
  | succ fuel ih =>
      constructor
      · intro ts hlen
        match ts with
        | [] => simp [Lisp2.parseC]
        | t :: ts =>
            simp only [Lisp2.parseC]
            split
            · exact ih.2 [] ts (by simp at hlen; omega)
            · split
              · simp
              · split
                · cases hin : Lisp2.parseC fuel .expr ts with
                  | ok p => obtain ⟨v2, r2⟩ := p; simp
                  | error e =>
                      have := ih.1 ts (by simp at hlen; omega)
                      rw [hin] at this
                      dsimp only
                      exact this
                · simp
      · intro acc ts hlen
        match ts with
        | [] => simp [Lisp2.parseC]
        | t :: ts =>
            simp only [Lisp2.parseC]
            split
            · simp
            · cases hin : Lisp2.parseC fuel .expr (t :: ts) with
              | ok p =>
                  obtain ⟨v2, r2⟩ := p
                  dsimp only
                  by_cases hre : r2.isEmpty
                  · rw [if_pos hre]; simp
                  · rw [if_neg hre]
                    have hcons := Lisp2.parseC_consume fuel _ _ _ _ hin
                    exact ih.2 (v2 :: acc) r2
                      (by simp only [List.length_cons] at hcons hlen ⊢; omega)
              | error e =>
                  have := ih.1 (t :: ts) (by simp at hlen ⊢; omega)
                  rw [hin] at this
                  dsimp only
                  exact this

/-- C8: counterexample to the claim as stated — a host-level `IndexError`
does escape the parser: `lisp2.py`'s list loop peeks `tokens[0]` before its
EOF re-check, so parsing the single token `(` dies with `IndexError`, not
`SyntaxError:UnexpectedEOF`.  (`lisp.py` and `lisp3.py` fail the same way on
any mid-list exhaustion.) -/
theorem C8_parser_host_error_counterexample :
    Lisp2.parse ["("] = .error .hostIndex := rfl

/-- C8 (amended): the parser's failures are `UnexpectedEOF` when the stream
is exhausted at an expression position or (in `lisp2.py`) after a list
element, `UnexpectedCloseParen` whenever `)` opens an expression position,
and a host `IndexError` when the stream is exhausted where the list loop
peeks `tokens[0]` — immediately after `(` in `lisp2.py`, anywhere mid-list
in `lisp.py`/`lisp3.py`.  The wrapper fuel of the `lisp2.py` model is shown
sufficient for every token sequence, so no other outcome than these (or a
successful parse) is possible. -/
theorem C8_parser_error_classification :
    (∀ ts : List String, Lisp2.parse ts ≠ .error .fuelOut) ∧
    (∀ ts : List String, Lisp2.parse (")" :: ts) = .error .closeErr) ∧
    Lisp2.parse [] = .error .eofErr ∧
    Lisp2.parse ["(", "1"] = .error .eofErr ∧
    Lisp2.parse ["(", "1", ")"] = .ok (.list [.int 1], []) ∧
    Lisp1.parse 10 [] = .error .eofErr ∧
    Lisp1.parse 10 [")"] = .error .closeErr ∧
    Lisp1.parse 10 ["(", "1"] = .error .hostIndex ∧
    Lisp3.parse ["(", "1"] = .error .hostIndex ∧
    Lisp3.parse ["("] = .error .hostIndex := by
  refine ⟨fun ts => (Lisp2.parseC_noFuel (2 * ts.length + 2)).1 ts (by omega),
    fun ts => rfl, rfl, rfl, rfl, rfl, rfl, rfl, rfl, rfl⟩

/-- C8 witness: the fuel-sufficiency conjunct applied to a concrete token
sequence. -/
theorem C8_parser_error_classification_witness :
    Lisp2.parse ["x"] ≠ .error .fuelOut :=
  C8_parser_error_classification.1 ["x"]

/-! ## Round-trip machinery for the printer/parser claim -/

theorem splitWsAux_nonws (t : List Char) :
    ∀ (cs : List Char) (acc : List Char), (∀ c ∈ t, wsChar c = false) →
      splitWsAux (t ++ cs) acc = splitWsAux cs (t.reverse ++ acc) := by
  induction t with
  | nil => intro cs acc h; simp
  | cons c t ih =>
      intro cs acc h
      have hc : wsChar c = false := h c (by simp)
      have ht : ∀ c2 ∈ t, wsChar c2 = false := fun c2 hm => h c2 (by simp [hm])
      simp only [List.cons_append, splitWsAux, hc, Bool.false_eq_true,
        if_false, List.append_eq]
      rw [ih cs (c :: acc) ht, List.reverse_cons, List.append_assoc,
        List.singleton_append]

theorem splitWs_ws_skip (c : Char) (cs : List Char) (h : wsChar c = true) :
    splitWs (c :: cs) = splitWs cs := by
  simp [splitWs, splitWsAux, h]

theorem splitWs_token (t cs : List Char) (hne : t ≠ [])
    (hp : ∀ c ∈ t, wsChar c = false) (hb : WsB cs) :
    splitWs (t ++ cs) = String.mk t :: splitWs cs := by
  unfold splitWs
  rw [splitWsAux_nonws t cs [] hp]
  obtain ⟨r, rs, hrev⟩ : ∃ r rs, t.reverse = r :: rs := by
    cases hr : t.reverse with
    | nil => exact absurd (by simpa using congrArg List.reverse hr) hne
    | cons r rs => exact ⟨r, rs, rfl⟩
  rcases hb with rfl | ⟨c, cs2, rfl, hc⟩
  · rw [List.append_nil, hrev]
    simp only [splitWsAux]
    rw [← hrev]
    simp [splitWs]
  · rw [List.append_nil, hrev]
    simp only [splitWsAux, hc, if_true]
    rw [← hrev]
    simp [splitWs]

theorem char_toNat_ofNat (n : Nat) (h : n < 128) : (Char.ofNat n).toNat = n := by
  unfold Char.ofNat
  split
  · rfl
  · next hval => exact absurd (by unfold Nat.isValidChar; omega) hval

theorem natDigs_digits (fuel : Nat) :
    ∀ n, ∀ c ∈ Lisp2.natDigs fuel n, 48 ≤ c.toNat ∧ c.toNat ≤ 57 := by
  induction fuel with
  | zero => intro n c hc; simp [Lisp2.natDigs] at hc
  | succ fuel ih =>
      intro n c hc
      simp only [Lisp2.natDigs] at hc
      by_cases hn : n < 10
      · rw [if_pos hn] at hc
        simp at hc
        subst hc
        rw [char_toNat_ofNat (48 + n) (by omega)]
        omega
      · rw [if_neg hn] at hc
        simp only [List.mem_append, List.mem_singleton] at hc
        rcases hc with hc | hc
        · exact ih (n / 10) c hc
        · subst hc
          have : n % 10 < 10 := Nat.mod_lt n (by omega)
          rw [char_toNat_ofNat (48 + n % 10) (by omega)]
          omega

theorem natDigs_ne_nil (fuel n : Nat) : Lisp2.natDigs (fuel + 1) n ≠ [] := by
  simp only [Lisp2.natDigs]
  by_cases hn : n < 10
  · simp [hn]
  · simp [hn]

theorem parseDigits_all (ds : List Char) :
    ∀ acc, (∀ c ∈ ds, 48 ≤ c.toNat ∧ c.toNat ≤ 57) →
      parseDigits acc ds =
        some (ds.foldl (fun a c => a * 10 + (c.toNat - 48)) acc) := by
  induction ds with
  | nil => intro acc h; rfl
  | cons c ds ih =>
      intro acc h
      have hd := h c (by simp)
      have hnu : ¬ c = '_' := by
        intro hcon
        subst hcon
        simp at hd
      have hdv : digitVal c = some (c.toNat - 48) := by
        unfold digitVal
        rw [if_pos (by omega)]
      unfold parseDigits
      rw [if_neg hnu, hdv]
      simp only [List.foldl_cons]
      exact ih _ (fun c2 hm => h c2 (by simp [hm]))

theorem foldl_natDigs (fuel : Nat) :
    ∀ n acc, n < fuel →
      (Lisp2.natDigs fuel n).foldl (fun a c => a * 10 + (c.toNat - 48)) acc =
        acc * 10 ^ (Lisp2.natDigs fuel n).length + n := by
  induction fuel with
  | zero => intro n acc h; omega
  | succ fuel ih =>
      intro n acc h
      simp only [Lisp2.natDigs]
      by_cases hn : n < 10
      · rw [if_pos hn]
        simp only [List.foldl_cons, List.foldl_nil, List.length_singleton]
        rw [char_toNat_ofNat (48 + n) (by omega)]
        ring_nf
        omega
      · rw [if_neg hn]
        have h10 : n / 10 < fuel := by omega
        rw [List.foldl_append]
        rw [ih (n / 10) acc h10]
        simp only [List.foldl_cons, List.foldl_nil, List.length_append,
          List.length_singleton]
        rw [char_toNat_ofNat (48 + n % 10) (by omega : 48 + n % 10 < 128)]
        have hmod : n % 10 + 10 * (n / 10) = n := Nat.mod_add_div n 10
        ring_nf
        omega

theorem char_ne_of_toNat {c d : Char} (h : c.toNat ≠ d.toNat) : c ≠ d :=
  fun hc => h (congrArg Char.toNat hc)

theorem digit_plainChar (c : Char) (h1 : 48 ≤ c.toNat) (h2 : c.toNat ≤ 57) :
    plainChar c = true := by
  have hsp : c ≠ ' ' := char_ne_of_toNat (by simp; omega)
  have h9 : c ≠ Char.ofNat 9 := char_ne_of_toNat (by simp; omega)
  have h10 : c ≠ Char.ofNat 10 := char_ne_of_toNat (by simp; omega)
  have h13 : c ≠ Char.ofNat 13 := char_ne_of_toNat (by simp; omega)
  have h11 : c ≠ Char.ofNat 11 := char_ne_of_toNat (by simp; omega)
  have h12 : c ≠ Char.ofNat 12 := char_ne_of_toNat (by simp; omega)
  have hop : c ≠ '(' := char_ne_of_toNat (by simp; omega)
  have hcp : c ≠ ')' := char_ne_of_toNat (by simp; omega)
  have hq : c ≠ qchar := char_ne_of_toNat (by simp [qchar]; omega)
  simp [plainChar, wsChar, hsp, h9, h10, h13, h11, h12, hop, hcp, hq]

theorem minus_plainChar : plainChar '-' = true := by decide

theorem intStr_data_plain (n : Int) :
    (Lisp2.intStr n).data ≠ [] ∧
      ∀ c ∈ (Lisp2.intStr n).data, plainChar c = true := by
  cases n with
  | ofNat m =>
      refine ⟨natDigs_ne_nil m m, fun c hc => ?_⟩
      have := natDigs_digits (m + 1) m c hc
      exact digit_plainChar c this.1 this.2
  | negSucc k =>
      refine ⟨by simp [Lisp2.intStr], fun c hc => ?_⟩
      simp only [Lisp2.intStr, List.mem_cons] at hc
      rcases hc with rfl | hc
      · exact minus_plainChar
      · have := natDigs_digits (k + 2) (k + 1) c hc
        exact digit_plainChar c this.1 this.2

theorem pyParseInt_cons_digits (d : Char) (ds : List Char)
    (hd : 48 ≤ d.toNat ∧ d.toNat ≤ 57)
    (hds : ∀ c ∈ ds, 48 ≤ c.toNat ∧ c.toNat ≤ 57) :
    pyParseInt (String.mk (d :: ds)) =
      some (((d :: ds).foldl (fun a c => a * 10 + (c.toNat - 48)) 0 : Nat)
              : Int) := by
  have hdm : d ≠ Char.ofNat 45 := char_ne_of_toNat (by simp; omega)
  have hdp : d ≠ Char.ofNat 43 := char_ne_of_toNat (by simp; omega)
  have hdv : digitVal d = some (d.toNat - 48) := by
    unfold digitVal
    rw [if_pos (by omega)]
  unfold pyParseInt
  rw [show (String.mk (d :: ds)).data = d :: ds from rfl]
  split
  · next cs heq =>
      injection heq with h1 h2
      exact absurd h1 hdm
  · next cs heq =>
      injection heq with h1 h2
      exact absurd h1 hdp
  · simp only [parseDigits1, hdv]
    rw [parseDigits_all ds (d.toNat - 48) hds]
    simp [List.foldl_cons]

theorem pyParseInt_intStr (n : Int) :
    pyParseInt (Lisp2.intStr n) = some n := by
  cases n with
  | ofNat m =>
      obtain ⟨d, ds, hds⟩ : ∃ d ds, Lisp2.natDigs (m + 1) m = d :: ds := by
        cases hd : Lisp2.natDigs (m + 1) m with
        | nil => exact absurd hd (natDigs_ne_nil m m)
        | cons d ds => exact ⟨d, ds, rfl⟩
      have hdig : ∀ c ∈ Lisp2.natDigs (m + 1) m,
          48 ≤ c.toNat ∧ c.toNat ≤ 57 := natDigs_digits (m + 1) m
      have hfold := foldl_natDigs (m + 1) m 0 (by omega)
      show pyParseInt (String.mk (Lisp2.natDigs (m + 1) m))
            = some (Int.ofNat m)
      rw [hds]
      rw [pyParseInt_cons_digits d ds (hdig d (by simp [hds]))
            (fun c hc => hdig c (by simp [hds, hc]))]
      rw [hds] at hfold
      rw [hfold]
      simp
  | negSucc k =>
      obtain ⟨d, ds, hds⟩ : ∃ d ds, Lisp2.natDigs (k + 2) (k + 1) = d :: ds := by
        cases hd : Lisp2.natDigs (k + 2) (k + 1) with
        | nil => exact absurd hd (natDigs_ne_nil (k + 1) (k + 1))
        | cons d ds => exact ⟨d, ds, rfl⟩
      have hdig : ∀ c ∈ Lisp2.natDigs (k + 2) (k + 1),
          48 ≤ c.toNat ∧ c.toNat ≤ 57 := natDigs_digits (k + 2) (k + 1)
      have hfold := foldl_natDigs (k + 2) (k + 1) 0 (by omega)
      have hdv : digitVal d = some (d.toNat - 48) := by
        have hd0 := hdig d (by simp [hds])
        unfold digitVal
        rw [if_pos (by omega)]
      show pyParseInt (String.mk (Char.ofNat 45 :: Lisp2.natDigs (k + 2) (k + 1)))
            = some (Int.negSucc k)
      unfold pyParseInt
      rw [show (String.mk (Char.ofNat 45 :: Lisp2.natDigs (k + 2) (k + 1))).data
            = Char.ofNat 45 :: Lisp2.natDigs (k + 2) (k + 1) from rfl]
      rw [hds]
      have hp1 : parseDigits1 (d :: ds)
          = some ((d :: ds).foldl (fun a c => a * 10 + (c.toNat - 48)) 0) := by
        have hall : ∀ c ∈ ds, 48 ≤ c.toNat ∧ c.toNat ≤ 57 :=
          fun c hc => hdig c (by simp [hds, hc])
        unfold parseDigits1
        dsimp only
        rw [hdv]
        dsimp only
        rw [parseDigits_all ds (d.toNat - 48) hall]
        simp [List.foldl_cons]
      have hfold2 : (d :: ds).foldl (fun a c => a * 10 + (c.toNat - 48)) 0
          = k + 1 := by
        rw [← hds, hfold]
        simp
      show (parseDigits1 (d :: ds)).map (fun n => -(n : Int))
            = some (Int.negSucc k)
      rw [hp1, hfold2]
      simp [Int.negSucc_eq]

theorem atomize_intStr (n : Int) : Lisp2.atomize (Lisp2.intStr n) = .int n := by
  unfold Lisp2.atomize
  rw [pyParseInt_intStr]

theorem plain_not_ws (c : Char) (h : plainChar c = true) : wsChar c = false := by
  unfold plainChar at h
  cases hw : wsChar c with
  | false => rfl
  | true => rw [hw] at h; simp at h

theorem plain_string_ne (t : String) (hne : t.data ≠ [])
    (hp : ∀ c ∈ t.data, plainChar c = true) :
    t ≠ "(" ∧ t ≠ ")" ∧ t ≠ qtok := by
  refine ⟨fun hcon => ?_, fun hcon => ?_, fun hcon => ?_⟩
  · subst hcon
    have := hp '(' (by decide)
    simp [plainChar] at this
  · subst hcon
    have := hp ')' (by decide)
    simp [plainChar] at this
  · subst hcon
    have := hp qchar (by decide)
    simp [plainChar] at this

theorem expandChars_append (a b : List Char) :
    Lisp2.expandChars (a ++ b) = Lisp2.expandChars a ++ Lisp2.expandChars b := by
  simp [Lisp2.expandChars]

theorem expandChars_plain (cs : List Char) (h : ∀ c ∈ cs, plainChar c = true) :
    Lisp2.expandChars cs = cs := by
  induction cs with
  | nil => rfl
  | cons c cs ih =>
      have hc := h c (by simp)
      have h1 : ¬ c = qchar := by
        intro hcon; subst hcon; simp [plainChar] at hc
      have h2 : ¬ c = '(' := by
        intro hcon; subst hcon; simp [plainChar] at hc
      have h3 : ¬ c = ')' := by
        intro hcon; subst hcon; simp [plainChar] at hc
      simp only [Lisp2.expandChars, List.map_cons, List.flatten_cons,
        h1, h2, h3, if_false]
      exact congrArg (c :: ·) (ih (fun c2 hm => h c2 (by simp [hm])))

theorem string_mk_data (s : String) : String.mk s.data = s := rfl

theorem expandChars_cons_open (b : List Char) :
    Lisp2.expandChars ('(' :: b) = ' ' :: '(' :: ' ' :: Lisp2.expandChars b := rfl

theorem expandChars_cons_close (b : List Char) :
    Lisp2.expandChars (')' :: b) = ' ' :: ')' :: ' ' :: Lisp2.expandChars b := rfl

theorem expandChars_cons_space (b : List Char) :
    Lisp2.expandChars (' ' :: b) = ' ' :: Lisp2.expandChars b := rfl

theorem strElems_toks (ys : List Lisp2.Value)
    (hrec : ∀ x ∈ ys, ∀ cs, WsB cs →
      splitWs (Lisp2.expandChars (Lisp2.lisp_to_str x).data ++ cs)
        = Lisp2.toksOf x ++ splitWs cs) :
    ∀ cs, WsB cs →
      splitWs (Lisp2.expandChars (Lisp2.strElems ys).data ++ cs)
        = Lisp2.toksElems ys ++ splitWs cs := by
  induction ys with
  | nil =>
      intro cs hb
      simp [Lisp2.strElems, Lisp2.expandChars, Lisp2.toksElems]
  | cons x ys ih =>
      intro cs hb
      cases ys with
      | nil =>
          simpa [Lisp2.strElems, Lisp2.toksElems] using hrec x (by simp) cs hb
      | cons y ys2 =>
          have hdata : (Lisp2.strElems (x :: y :: ys2)).data
              = (Lisp2.lisp_to_str x).data
                  ++ ' ' :: (Lisp2.strElems (y :: ys2)).data := by
            show (Lisp2.lisp_to_str x ++ " " ++ Lisp2.strElems (y :: ys2)).data
                = _
            simp [String.data_append]
          rw [hdata, expandChars_append]
          have hsp : Lisp2.expandChars (' ' :: (Lisp2.strElems (y :: ys2)).data)
              = ' ' :: Lisp2.expandChars (Lisp2.strElems (y :: ys2)).data :=
            expandChars_cons_space _
          rw [hsp, List.append_assoc, List.cons_append]
          rw [hrec x (by simp)
            (' ' :: (Lisp2.expandChars (Lisp2.strElems (y :: ys2)).data ++ cs))
            (Or.inr ⟨' ',
              Lisp2.expandChars (Lisp2.strElems (y :: ys2)).data ++ cs,
              rfl, by decide⟩)]
          rw [splitWs_ws_skip ' ' _ (by decide)]
          rw [ih (fun z hz => hrec z (by simp [hz])) cs hb]
          simp [Lisp2.toksElems]

theorem tokenize_renders (v : Lisp2.Value) (hv : Lisp2.PureVal v) :
    ∀ cs : List Char, WsB cs →
      splitWs (Lisp2.expandChars (Lisp2.lisp_to_str v).data ++ cs)
        = Lisp2.toksOf v ++ splitWs cs := by
  induction hv with
  | int n =>
      intro cs hb
      have hplain := intStr_data_plain n
      show splitWs (Lisp2.expandChars (Lisp2.intStr n).data ++ cs) = _
      rw [expandChars_plain _ hplain.2]
      rw [splitWs_token _ cs hplain.1
        (fun c hc => plain_not_ws c (hplain.2 c hc)) hb]
      rw [string_mk_data]
      rfl
  | sym s hne hplain hint =>
      intro cs hb
      have hplain2 : ∀ c ∈ s.data, plainChar c = true := by
        intro c hc
        exact List.all_eq_true.mp hplain c hc
      show splitWs (Lisp2.expandChars s.data ++ cs) = _
      rw [expandChars_plain _ hplain2]
      rw [splitWs_token _ cs hne
        (fun c hc => plain_not_ws c (hplain2 c hc)) hb]
      rw [string_mk_data]
      rfl
  | list xs hne hmem ih =>
      intro cs hb
      obtain ⟨x, xs2, rfl⟩ : ∃ x xs2, xs = x :: xs2 := by
        cases xs with
        | nil => exact absurd rfl hne
        | cons x xs2 => exact ⟨x, xs2, rfl⟩
      have hdata : (Lisp2.lisp_to_str (.list (x :: xs2))).data
          = '(' :: ((Lisp2.strElems (x :: xs2)).data ++ [')']) := by
        show ("(" ++ Lisp2.strElems (x :: xs2) ++ ")").data = _
        simp [String.data_append]
      rw [hdata]
      rw [expandChars_cons_open, expandChars_append]
      rw [show Lisp2.expandChars [')'] = [' ', ')', ' '] from rfl]
      simp only [List.cons_append, List.append_assoc]
      rw [splitWs_ws_skip ' ' _ (by decide)]
      show splitWs (['('] ++ (' ' ::
          (Lisp2.expandChars (Lisp2.strElems (x :: xs2)).data
            ++ (' ' :: ')' :: ' ' :: cs))))
          = Lisp2.toksOf (.list (x :: xs2)) ++ splitWs cs
      rw [splitWs_token ['('] _ (by simp) (by decide)
        (Or.inr ⟨' ',
          Lisp2.expandChars (Lisp2.strElems (x :: xs2)).data
            ++ (' ' :: ')' :: ' ' :: cs), rfl, by decide⟩)]
      rw [splitWs_ws_skip ' ' _ (by decide)]
      rw [strElems_toks (x :: xs2) ih (' ' :: ')' :: ' ' :: cs)
        (Or.inr ⟨' ', ')' :: ' ' :: cs, rfl, by decide⟩)]
      rw [splitWs_ws_skip ' ' (')' :: ' ' :: cs) (by decide)]
      rw [show (')' :: ' ' :: cs) = [')'] ++ (' ' :: cs) from rfl]
      rw [splitWs_token [')'] _ (by simp) (by decide)
        (Or.inr ⟨' ', cs, rfl, by decide⟩)]
      rw [splitWs_ws_skip ' ' cs (by decide)]
      show "(" :: (Lisp2.toksElems (x :: xs2) ++ (")" :: splitWs cs))
          = Lisp2.toksOf (.list (x :: xs2)) ++ splitWs cs
      simp [Lisp2.toksOf]

theorem toksOf_head_ne (v : Lisp2.Value) (hv : Lisp2.PureVal v) :
    ∃ t ts, Lisp2.toksOf v = t :: ts ∧ t ≠ ")" := by
  cases hv with
  | int n =>
      exact ⟨Lisp2.intStr n, [], rfl,
        (plain_string_ne _ (intStr_data_plain n).1 (intStr_data_plain n).2).2.1⟩
  | sym s hne hplain hint =>
      exact ⟨s, [], rfl,
        (plain_string_ne s hne (fun c hc => List.all_eq_true.mp hplain c hc)).2.1⟩
  | list xs hne hmem =>
      cases xs with
      | nil => exact absurd rfl hne
      | cons x xs2 =>
          exact ⟨"(", Lisp2.toksElems (x :: xs2) ++ [")"], rfl, by decide⟩

theorem parse_loop_toks (ys : List Lisp2.Value)
    (hpure : ∀ y ∈ ys, Lisp2.PureVal y)
    (hrec : ∀ y ∈ ys, ∀ (rest : List String) (fuel : Nat),
      2 * (Lisp2.toksOf y ++ rest).length + 1 ≤ fuel →
      Lisp2.parseC fuel .expr (Lisp2.toksOf y ++ rest) = .ok (y, rest)) :
    ∀ (acc : List Lisp2.Value) (rest : List String) (fuel : Nat),
      2 * (Lisp2.toksElems ys ++ ")" :: rest).length + 2 ≤ fuel →
      Lisp2.parseC fuel (.loop acc) (Lisp2.toksElems ys ++ ")" :: rest)
        = .ok (.list (acc.reverse ++ ys), rest) := by
  induction ys with
  | nil =>
      intro acc rest fuel hf
      obtain ⟨f, rfl⟩ : ∃ f, fuel = f + 1 := ⟨fuel - 1, by omega⟩
      show Lisp2.parseC (f + 1) (.loop acc) (")" :: rest) = _
      simp [Lisp2.parseC]
  | cons y ys2 ihl =>
      intro acc rest fuel hf
      obtain ⟨t, ts, hts, htne⟩ := toksOf_head_ne y (hpure y (by simp))
      obtain ⟨f, rfl⟩ : ∃ f, fuel = f + 1 := ⟨fuel - 1, by omega⟩
      have hshape : Lisp2.toksElems (y :: ys2) ++ ")" :: rest
          = t :: (ts ++ (Lisp2.toksElems ys2 ++ ")" :: rest)) := by
        show (Lisp2.toksOf y ++ Lisp2.toksElems ys2) ++ ")" :: rest = _
        rw [hts]
        simp
      rw [hshape]
      simp only [Lisp2.parseC]
      rw [if_neg htne]
      have hback : t :: (ts ++ (Lisp2.toksElems ys2 ++ ")" :: rest))
          = Lisp2.toksOf y ++ (Lisp2.toksElems ys2 ++ ")" :: rest) := by
        rw [hts]
        simp
      rw [hback]
      have hlen1 : (Lisp2.toksOf y).length ≥ 1 := by
        rw [hts]; simp
      have hlenE : (Lisp2.toksElems (y :: ys2) ++ ")" :: rest).length
          = (Lisp2.toksOf y).length
            + (Lisp2.toksElems ys2 ++ ")" :: rest).length := by
        show ((Lisp2.toksOf y ++ Lisp2.toksElems ys2) ++ ")" :: rest).length = _
        simp
      rw [hrec y (by simp) (Lisp2.toksElems ys2 ++ ")" :: rest) f
        (by rw [hlenE] at hf; simp only [List.length_append] at hf ⊢; omega)]
      dsimp only
      have hemp : (Lisp2.toksElems ys2 ++ ")" :: rest).isEmpty = false := by
        cases he : Lisp2.toksElems ys2 with
        | nil => rfl
        | cons a b => rfl
      rw [hemp]
      simp only [Bool.false_eq_true, if_false]
      rw [ihl (fun z hz => hpure z (by simp [hz]))
        (fun z hz => hrec z (by simp [hz])) (y :: acc) rest f
        (by rw [hlenE] at hf; omega)]
      simp

theorem parse_toks (v : Lisp2.Value) (hv : Lisp2.PureVal v) :
    ∀ (rest : List String) (fuel : Nat),
      2 * (Lisp2.toksOf v ++ rest).length + 1 ≤ fuel →
      Lisp2.parseC fuel .expr (Lisp2.toksOf v ++ rest) = .ok (v, rest) := by
  induction hv with
  | int n =>
      intro rest fuel hf
      obtain ⟨f, rfl⟩ : ∃ f, fuel = f + 1 := ⟨fuel - 1, by omega⟩
      obtain ⟨h1, h2, h3⟩ :=
        plain_string_ne _ (intStr_data_plain n).1 (intStr_data_plain n).2
      show Lisp2.parseC (f + 1) .expr (Lisp2.intStr n :: rest) = _
      simp only [Lisp2.parseC]
      rw [if_neg h1, if_neg h2, if_neg h3, atomize_intStr]
  | sym s hne hplain hint =>
      intro rest fuel hf
      obtain ⟨f, rfl⟩ : ∃ f, fuel = f + 1 := ⟨fuel - 1, by omega⟩
      obtain ⟨h1, h2, h3⟩ := plain_string_ne s hne
        (fun c hc => List.all_eq_true.mp hplain c hc)
      show Lisp2.parseC (f + 1) .expr (s :: rest) = _
      simp only [Lisp2.parseC]
      rw [if_neg h1, if_neg h2, if_neg h3]
      unfold Lisp2.atomize
      rw [hint]
  | list xs hne hmem ih =>
      intro rest fuel hf
      obtain ⟨x, xs2, rfl⟩ : ∃ x xs2, xs = x :: xs2 := by
        cases xs with
        | nil => exact absurd rfl hne
        | cons x xs2 => exact ⟨x, xs2, rfl⟩
      obtain ⟨f, rfl⟩ : ∃ f, fuel = f + 1 := ⟨fuel - 1, by omega⟩
      have hshape : Lisp2.toksOf (.list (x :: xs2)) ++ rest
          = "(" :: (Lisp2.toksElems (x :: xs2) ++ ")" :: rest) := by
        show ("(" :: Lisp2.toksElems (x :: xs2) ++ [")"]) ++ rest = _
        simp
      rw [hshape]
      simp only [Lisp2.parseC, if_pos rfl]
      rw [parse_loop_toks (x :: xs2) hmem ih [] rest f
        (by rw [hshape] at hf; simp only [List.length_cons] at hf ⊢; omega)]
      simp

/-- C9: counterexample to the claim as stated — the empty list renders as
`NIL`, which re-parses as the symbol `NIL`, not as the empty list; the
round trip fails on this atomic value (and likewise boolean-true, which
renders as `T`). -/
theorem C9_nil_roundtrip_counterexample :
    Lisp2.parse (Lisp2.tokenize (Lisp2.lisp_to_str (.list [])))
      = .ok (.sym "NIL", []) := rfl

/-- C9 (amended): the renderer maps the empty list to `NIL`, boolean-true
to `T`, and a non-empty list to `(` plus the space-joined recursive
renderings plus `)`; and parsing the printed rendering returns the value
itself, with the whole token stream consumed, for every `PureVal` value —
integers, symbols that re-tokenize as a single plain non-integer token, and
non-empty lists of such values.  The empty list and the boolean sentinels
are excluded: they print as `NIL`/`T`, which re-parse as symbols. -/
theorem C9_roundtrip :
    Lisp2.lisp_to_str (.list []) = "NIL" ∧
    Lisp2.lisp_to_str (.bool true) = "T" ∧
    (∀ (x : Lisp2.Value) (xs : List Lisp2.Value),
      Lisp2.lisp_to_str (.list (x :: xs))
        = "(" ++ Lisp2.strElems (x :: xs) ++ ")") ∧
    (∀ v : Lisp2.Value, Lisp2.PureVal v →
      Lisp2.parse (Lisp2.tokenize (Lisp2.lisp_to_str v)) = .ok (v, [])) := by
  refine ⟨rfl, rfl, fun x xs => rfl, fun v hv => ?_⟩
  have htok : Lisp2.tokenize (Lisp2.lisp_to_str v) = Lisp2.toksOf v := by
    show splitWs (Lisp2.expandChars (Lisp2.lisp_to_str v).data) = _
    have h2 := tokenize_renders v hv [] (Or.inl rfl)
    simpa [splitWs, splitWsAux] using h2
  rw [htok]
  unfold Lisp2.parse
  have h3 := parse_toks v hv [] (2 * (Lisp2.toksOf v).length + 2)
    (by simp)
  simpa using h3

/-- C9 witness: the round trip evaluated on the concrete list `(12 ab)`. -/
theorem C9_roundtrip_witness :
    Lisp2.parse (Lisp2.tokenize (Lisp2.lisp_to_str
      (.list [.int 12, .sym "ab"]))) = .ok (.list [.int 12, .sym "ab"], []) :=
  C9_roundtrip.2.2.2 _ (by
    refine Lisp2.PureVal.list _ (by simp) ?_
    intro x hx
    simp only [List.mem_cons, List.mem_singleton] at hx
    rcases hx with rfl | rfl | hx
    · exact Lisp2.PureVal.int 12
    · exact Lisp2.PureVal.sym "ab" (by decide) (by decide) (by decide)
    · simp at hx)
